import Mathlib

/-!
Verification of the indown-omw conversion scripts (`map2ili.py` and
`fix_malformed_tsv.py`) against their specification.

The Python code is shallowly embedded: each Python function becomes an
executable Lean definition over `String`/`List`/`Rat`/`Option`.  Python
text operations (`str.split('\t')`, `str.strip()`, `'\t'.join`,
`str.replace`, `int(...)`, `f"{n:08d}"`, `str.rsplit('-', 1)`) are
implemented here character-by-character with structural recursion so that
every definition evaluates inside the kernel.  Python floats (the mapping
confidence scores) are modelled as exact rationals: the code only ever
compares scores, and comparison of two (non-NaN) floats agrees with
comparison of the rational values they denote.  Python dictionaries are
modelled as insertion-ordered association lists, and a Python function
raising an uncaught exception is modelled as returning `none`.
-/

namespace Indown

/-! ### Python text primitives -/

/-- Python whitespace characters, as used by `str.strip()`. -/
def isPySpace (c : Char) : Bool :=
  c == ' ' || c == '\t' || c == '\n' || c == '\r' || c == '\x0b' || c == '\x0c'

/-- Python `s.strip()`. -/
def pyStrip (s : String) : String :=
  String.mk (((s.data.dropWhile isPySpace).reverse.dropWhile isPySpace).reverse)

/-- Python `s.rstrip('\n')`. -/
def pyRstripNl (s : String) : String :=
  String.mk ((s.data.reverse.dropWhile (· == '\n')).reverse)

/-- Helper for `pySplitTab`: splits a character list at every tab. -/
def splitTabAux : List Char → List Char → List (List Char)
  | [], acc => [acc.reverse]
  | c :: cs, acc =>
    if c == '\t' then acc.reverse :: splitTabAux cs []
    else splitTabAux cs (c :: acc)

/-- Python `s.split('\t')` (keeps empty fields, `"" ↦ [""]`). -/
def pySplitTab (s : String) : List String :=
  (splitTabAux s.data []).map String.mk

/-- Python `'\t'.join(cols)`. -/
def joinTab : List String → String
  | [] => ""
  | [s] => s
  | s :: rest => s ++ "\t" ++ joinTab rest

/-- Python `s.replace('\n', ' ')` (single-character pattern, so a map). -/
def replaceNl (s : String) : String :=
  String.mk (s.data.map (fun c => if c == '\n' then ' ' else c))

/-- Python `s.startswith('"')`. -/
def startsWithQuote (s : String) : Bool :=
  match s.data with
  | c :: _ => c == '"'
  | [] => false

/-- Python `s.endswith(suffix)`. -/
def pyEndsWith (s suffix : String) : Bool :=
  suffix.data.isSuffixOf s.data

/-- Helper for `pyToInt`: decimal digits with single underscores allowed
between digits (Python 3 `int` literal grammar, ASCII digits). -/
def digitsVal (acc : Nat) : List Char → Option Nat
  | [] => some acc
  | c :: rest =>
    if c.isDigit then digitsVal (acc * 10 + (c.toNat - 48)) rest
    else if c == '_' then
      match rest with
      | d :: _ => if d.isDigit then digitsVal acc rest else none
      | [] => none
    else none

/-- Helper for `pyToInt`: digit run that must start with a digit. -/
def parseDigits (cs : List Char) : Option Nat :=
  match cs with
  | c :: _ => if c.isDigit then digitsVal 0 cs else none
  | [] => none

/-- Python `int(s)` for a string argument: surrounding whitespace is
allowed, then an optional sign and ASCII digits (with underscores between
digits).  `none` models the `ValueError`. -/
def pyToInt (s : String) : Option Int :=
  match (pyStrip s).data with
  | '+' :: rest => (parseDigits rest).map Int.ofNat
  | '-' :: rest => (parseDigits rest).map (fun n => -(n : Int))
  | rest => (parseDigits rest).map Int.ofNat

/-- Left-pads a decimal string with zeros up to width `w`. -/
def padZeros (w : Nat) (s : String) : String :=
  if s.length < w then String.mk (List.replicate (w - s.length) '0') ++ s else s

/-- Python `f"{n:08d}"`: zero-pad to total width 8, sign first. -/
def format08d (n : Int) : String :=
  if n < 0 then "-" ++ padZeros 7 (toString n.natAbs) else padZeros 8 (toString n.toNat)

/-- Python `s.rsplit('-', 1)`: split at the last dash, or return `[s]`
when there is no dash. -/
def rsplitDash (s : String) : List String :=
  match (s.data.reverse.span (fun c => c ≠ '-')) with
  | (_, []) => [s]
  | (afterRev, _ :: beforeRev) =>
    [String.mk beforeRev.reverse, String.mk afterRev.reverse]

/-- Python `a or b` for an optional string `a` (`None` and `""` are falsy). -/
def pyOr (a : Option String) (b : String) : String :=
  match a with
  | some s => if s == "" then b else s
  | none => b

/-- Python truthiness of an optional string value. -/
def optTruthy : Option String → Bool
  | some s => !(s == "")
  | none => false

/-! ### Insertion-ordered dictionaries -/

/-- Insert into an insertion-ordered association list, replacing the value
if the key is already present (Python `d[k] = v`). -/
def d1insert (k v : String) : List (String × String) → List (String × String)
  | [] => [(k, v)]
  | (k0, v0) :: rest =>
    if k0 == k then (k0, v) :: rest else (k0, v0) :: d1insert k v rest

/-- Lookup in an association list (Python `d.get(k)`). -/
def d1get (d : List (String × String)) (k : String) : Option String :=
  (d.find? (fun e => e.1 == k)).map (·.2)

/-- The two-level final mapping: relation → (source key → ILI). -/
abbrev Dict2 := List (String × List (String × String))

/-- Python `iwn_to_ili[rel][k] = v` on a `defaultdict(dict)`. -/
def d2insert (rel k v : String) : Dict2 → Dict2
  | [] => [(rel, [(k, v)])]
  | (r0, d) :: rest =>
    if r0 == rel then (r0, d1insert k v d) :: rest
    else (r0, d) :: d2insert rel k v rest

/-- Lookup in a two-level mapping. -/
def d2get (m : Dict2) (rel k : String) : Option String :=
  match m.find? (fun e => e.1 == rel) with
  | some (_, d) => d1get d k
  | none => none

/-! ### `fix_malformed_tsv.py` -/

/-- The split-line look-ahead test of `fix_tsv`: the current line has 7 or
8 tab-separated columns and the next line has exactly 2 columns whose
first field starts with a quotation mark. -/
def mergeable (line next : String) : Bool :=
  let cols := pySplitTab line
  let nextCols := pySplitTab next
  decide (cols.length < 9) && decide (7 ≤ cols.length) &&
    (nextCols.length == 2) && startsWithQuote (nextCols.headD "")

/-- The merge step of `fix_tsv`: the continuation's first field is joined
(with the newline turned into a space) onto the last column of the first
line, and the continuation's second field is appended as the relation. -/
def mergeLines (line next : String) : String :=
  let cols := pySplitTab line
  let nextCols := pySplitTab next
  let mergedGloss := replaceNl (cols.getLastD "" ++ "\n" ++ nextCols.headD "")
  joinTab (cols.dropLast ++ [mergedGloss, nextCols.getLastD ""])

/-- The `WordN` normalization of `fix_tsv`: on a line with at least 9
columns whose stripped last column is `WordN`, the relation becomes
`Hypernymy`. -/
def wordnFix (line : String) : String :=
  let cols := pySplitTab line
  if decide (9 ≤ cols.length) && (pyStrip (cols.getLastD "") == "WordN") then
    joinTab (cols.dropLast ++ ["Hypernymy"])
  else line

/-- `fix_tsv` from `fix_malformed_tsv.py`, on the list of
newline-stripped input lines.  Returns the output lines together with the
`merged_lines` counter. -/
def fix_tsv : List String → List String × Nat
  | [] => ([], 0)
  | [line] => ([wordnFix line], 0)
  | line :: next :: rest =>
    if mergeable line next then
      let r := fix_tsv rest
      (mergeLines line next :: r.1, r.2 + 1)
    else
      let r := fix_tsv (next :: rest)
      (wordnFix line :: r.1, r.2)

/-! ### `map2ili.py`: version map and synset resolver -/

/-- The `PosTag` dictionary of `map2ili.py`. -/
def PosTag : List (String × String) :=
  [("NOUN", "n"), ("VERB", "v"), ("ADVERB", "r"), ("ADJECTIVE", "a")]

/-- Python `row in PosTag` / `PosTag[row]` combined. -/
def posLookup (s : String) : Option String :=
  (PosTag.find? (fun p => p.1 == s)).map (·.2)

/-- Python tuple comparison on `(score, offset)` pairs: compare the float
scores first, then the offset strings (code-point lexicographic). -/
def pairLt (a b : Rat × String) : Bool :=
  decide (a.1 < b.1) || (decide (a.1 = b.1) && decide (a.2 < b.2))

/-- Python `max(pairs)` on a nonempty list of `(score, offset)` pairs:
the running maximum is replaced only by a strictly greater element. -/
def pyMax (p : Rat × String) (ps : List (Rat × String)) : Rat × String :=
  ps.foldl (fun acc x => if pairLt acc x then x else acc) p

/-- A parsed line of a UPC mapping file, tagged with the POS letter of
the file it comes from: the 2.1 offset and the `(score, offset)` pairs
built by the comprehension in `load_pwn_map` (scores as exact
rationals). -/
abbrev PwnMapLine := String × String × List (Rat × String)

/-- `load_pwn_map` from `map2ili.py`, over the parsed lines of the four
mapping files.  A line with no pairs (`len(parts) < 3`) is skipped;
otherwise `map2130[f"{offset_21}-{pos}"] = f"{max(pairs)[1]}-{pos}"`.
The dictionary is an association list in which the most recent insertion
for a key is found first. -/
def load_pwn_map (lines : List PwnMapLine) : List (String × String) :=
  lines.foldl
    (fun m l =>
      match l with
      | (_, _, []) => m
      | (pos, offset21, p :: ps) =>
        (offset21 ++ "-" ++ pos, (pyMax p ps).2 ++ "-" ++ pos) :: m)
    []

/-- A synset of the external wordnet database, reduced to the field the
scripts read: its ILI identifier (`none` models a `None` ILI object). -/
structure Synset where
  ili : Option String
  deriving Repr, DecidableEq

/-- The external wordnet database: `ewn.synset(id=k)`, with `none`
modelling the `wn.Error` raised for an absent identifier. -/
abbrev DB := String → Option Synset

/-- `lookup_synset` from `map2ili.py`.  The outer `none` models the
uncaught `ValueError` of unpacking `rsplit('-', 1)` on a key with no
dash; otherwise the result is `(synset, actual_key)`, with the
satellite-adjective retry when the POS is `a`, or `(None, None)` when
every attempt fails. -/
def lookup_synset (ewn : DB) (pwn30Key : String) : Option (Option Synset × Option String) :=
  match rsplitDash pwn30Key with
  | [offset, pos] =>
    some (
      match ewn ("omw-en-" ++ pwn30Key) with
      | some synset => (some synset, some pwn30Key)
      | none =>
        if pos == "a" then
          let satKey := offset ++ "-s"
          match ewn ("omw-en-" ++ satKey) with
          | some synset => (some synset, some satKey)
          | none => (none, none)
        else (none, none))
  | _ => none

/-! ### `map2ili.py`: records, issues and the row parser -/

/-- One parsed IWN record (the `entry` dictionary of `load_iwn_map`).
The `ili` and `pwn30_key` keys are added later by `detect_and_mark_dupes`;
`none` stands both for an absent key and for a `None` value, exactly as
`entry.get(...)` reads them. -/
structure Entry where
  iwn_id : String
  iwn_pos : String
  pwn21_offset : String
  pwn21_pos : String
  english_lemmas : String
  english_gloss : String
  hindi_lemmas : String
  hindi_gloss : String
  original_rel : String
  rel : String
  iwn_key : String
  pwn21_key : String
  ili : Option String := none
  pwn30_key : Option String := none
  deriving Repr, DecidableEq, Inhabited

/-- A `malformed_lines` issue entry. -/
structure MalformedIssue where
  line_number : Nat
  error : String
  original_line : String
  deriving Repr, DecidableEq

/-- A `missing_pwn30` / `missing_omw` / `missing_ili` issue entry; the
optional fields are the keys that only some of the sites set. -/
structure MissingIssue where
  iwn_id : String
  pwn21_key : String
  pwn30_key : Option String := none
  omw_id : Option String := none
  omw_id_tried : Option (List String) := none
  rel : Option String := none
  english_lemmas : String
  english_gloss : String
  hindi_lemmas : String
  hindi_gloss : String
  deriving Repr, DecidableEq

/-- One member record inside a `duplicate_ili` issue entry. -/
structure DupEntryInfo where
  iwn_id : String
  hindi_lemmas : String
  hindi_gloss : String
  deriving Repr, DecidableEq

/-- A `duplicate_ili` issue entry. -/
structure DupIssue where
  ili : String
  pwn30_key : String
  english_lemmas : String
  english_gloss : String
  iwn_entries : List DupEntryInfo
  deriving Repr, DecidableEq

/-- The five issue lists accumulated by the run. -/
structure Issues where
  malformed_lines : List MalformedIssue := []
  duplicate_ili : List DupIssue := []
  missing_pwn30 : List MissingIssue := []
  missing_omw : List MissingIssue := []
  missing_ili : List MissingIssue := []
  deriving Repr, DecidableEq

/-- The empty issue collection set up in `__main__`. -/
def issues0 : Issues := {}

/-- A duplicate group as returned by `detect_and_mark_dupes`. -/
structure DupeGroup where
  ili : String
  entries : List Entry
  deriving Repr, DecidableEq

/-- The outcome of `load_iwn_map` on one input line. -/
inductive ParseResult where
  | header : ParseResult
  | record : Entry → ParseResult
  | malformed : MalformedIssue → ParseResult
  deriving Repr, DecidableEq

/-- The loop body of `load_iwn_map` on one line: strip and split the
line, skip the header, validate column count, relation label, the two POS
tags and the numeric offset, and build the entry. -/
def parse_line (lineno : Nat) (line : String) : ParseResult :=
  let row := pySplitTab (pyStrip line)
  if row.headD "" == "iwn_id" then .header
  else if row.length < 9 then
    .malformed { line_number := lineno,
                 error := "only " ++ toString row.length ++ " columns",
                 original_line := pyRstripNl line }
  else
    let relType := pyStrip (row.getLastD "")
    let rel? : Option String :=
      if relType == "Direct" then some "equal"
      else if relType == "Hypernymy" then some "hyper"
      else none
    match rel? with
    | none =>
      .malformed { line_number := lineno,
                   error := "unknown rel '" ++ relType ++ "'",
                   original_line := pyRstripNl line }
    | some rel =>
      match posLookup (row.getD 1 "") with
      | none =>
        .malformed { line_number := lineno,
                     error := "unknown IWN POS '" ++ row.getD 1 "" ++ "'",
                     original_line := pyRstripNl line }
      | some iwnPosTag =>
        match posLookup (row.getD 3 "") with
        | none =>
          .malformed { line_number := lineno,
                       error := "unknown PWN POS '" ++ row.getD 3 "" ++ "'",
                       original_line := pyRstripNl line }
        | some pwnPosTag =>
          match pyToInt (row.getD 2 "") with
          | none =>
            .malformed { line_number := lineno,
                         error := "invalid PWN offset '" ++ row.getD 2 "" ++ "'",
                         original_line := pyRstripNl line }
          | some pwnOffset =>
            .record
              { iwn_id := row.getD 0 ""
                iwn_pos := row.getD 1 ""
                pwn21_offset := row.getD 2 ""
                pwn21_pos := row.getD 3 ""
                english_lemmas := row.getD 4 ""
                english_gloss := row.getD 5 ""
                hindi_lemmas := row.getD 6 ""
                hindi_gloss := row.getD 7 ""
                original_rel := relType
                rel := rel
                iwn_key := row.getD 0 "" ++ "_" ++ iwnPosTag
                pwn21_key := format08d pwnOffset ++ "-" ++ pwnPosTag }

/-- One `load_iwn_map` loop step folded over `(lineno, line)` pairs:
a record is appended to the entries, a malformed line to the issues. -/
def load_step (acc : List Entry × Issues) (p : Nat × String) : List Entry × Issues :=
  match parse_line p.1 p.2 with
  | .header => acc
  | .record r => (acc.1 ++ [r], acc.2)
  | .malformed m =>
    (acc.1, { acc.2 with malformed_lines := acc.2.malformed_lines ++ [m] })

/-- `load_iwn_map` from `map2ili.py`, over the list of input lines
(numbered from 1, as `enumerate(fh, 1)` does). -/
def load_iwn_map (lines : List String) (issues : Issues) : List Entry × Issues :=
  (lines.enumFrom 1).foldl load_step ([], issues)

/-! ### `map2ili.py`: duplicate detection -/

/-- The `missing_pwn30` issue appended by the first pass of
`detect_and_mark_dupes`. -/
def mkMissingPwn30 (e : Entry) : MissingIssue :=
  { iwn_id := e.iwn_id, pwn21_key := e.pwn21_key,
    english_lemmas := e.english_lemmas, english_gloss := e.english_gloss,
    hindi_lemmas := e.hindi_lemmas, hindi_gloss := e.hindi_gloss }

/-- The `missing_ili` issue appended by the first pass of
`detect_and_mark_dupes`. -/
def mkMissingIli (e : Entry) (actualKey : Option String) : MissingIssue :=
  { iwn_id := e.iwn_id, pwn21_key := e.pwn21_key, pwn30_key := actualKey,
    omw_id := some ("omw-en-" ++ actualKey.getD ""),
    english_lemmas := e.english_lemmas, english_gloss := e.english_gloss,
    hindi_lemmas := e.hindi_lemmas, hindi_gloss := e.hindi_gloss }

/-- Python `s.replace('-a', '-s')` on a character list: left-to-right,
non-overlapping, every occurrence. -/
def replaceDashA : List Char → List Char
  | '-' :: 'a' :: rest => '-' :: 's' :: replaceDashA rest
  | c :: rest => c :: replaceDashA rest
  | [] => []

/-- The identifiers listed in a `missing_omw` issue: both the direct and
the satellite identifier when the key ends in `-a` (with Python's
`replace`, which rewrites every occurrence of `-a`). -/
def omwIdsTried (pwn30Key : String) : List String :=
  if pyEndsWith pwn30Key "-a" then
    ["omw-en-" ++ pwn30Key, "omw-en-" ++ String.mk (replaceDashA pwn30Key.data)]
  else ["omw-en-" ++ pwn30Key]

/-- The `missing_omw` issue appended by the first pass of
`detect_and_mark_dupes`. -/
def mkMissingOmw (e : Entry) (pwn30Key : String) : MissingIssue :=
  { iwn_id := e.iwn_id, pwn21_key := e.pwn21_key, pwn30_key := some pwn30Key,
    omw_id_tried := some (omwIdsTried pwn30Key),
    english_lemmas := e.english_lemmas, english_gloss := e.english_gloss,
    hindi_lemmas := e.hindi_lemmas, hindi_gloss := e.hindi_gloss }

/-- One first-pass step of `detect_and_mark_dupes`: resolve the ILI of a
`equal` entry through the version map and the synset lookup, recording
the failure issues.  `none` models the uncaught `ValueError` from
`lookup_synset`. -/
def resolve_entry (m : String → Option String) (ewn : DB) (e : Entry)
    (iss : Issues) : Option (Entry × Issues) :=
  if e.rel == "equal" then
    match m e.pwn21_key with
    | none =>
      some ({ e with ili := none, pwn30_key := none },
            { iss with missing_pwn30 := iss.missing_pwn30 ++ [mkMissingPwn30 e] })
    | some pwn30Key =>
      match lookup_synset ewn pwn30Key with
      | none => none
      | some (synsetOpt, actualKey) =>
        let e1 := { e with pwn30_key := some (pyOr actualKey pwn30Key) }
        match synsetOpt with
        | some synset =>
          let e2 := { e1 with ili := synset.ili }
          match synset.ili with
          | some _ => some (e2, iss)
          | none =>
            some (e2, { iss with missing_ili := iss.missing_ili ++ [mkMissingIli e actualKey] })
        | none =>
          some ({ e1 with ili := none },
                { iss with missing_omw := iss.missing_omw ++ [mkMissingOmw e pwn30Key] })
  else some (e, iss)

/-- The first pass of `detect_and_mark_dupes` over the whole entry
list. -/
def first_pass (m : String → Option String) (ewn : DB) :
    List Entry → Issues → Option (List Entry × Issues)
  | [], iss => some ([], iss)
  | e :: es, iss =>
    match resolve_entry m ewn e iss with
    | none => none
    | some (e1, iss1) =>
      match first_pass m ewn es iss1 with
      | none => none
      | some (es1, iss2) => some (e1 :: es1, iss2)

/-- The grouping condition of the second pass:
`entry['rel'] == 'equal' and entry.get('ili')`. -/
def eqQualifies (e : Entry) : Bool :=
  e.rel == "equal" && optTruthy e.ili

/-- The dictionary key an entry is grouped under. -/
def iliKey (e : Entry) : String := e.ili.getD ""

/-- Membership of an entry in the group of a given ILI. -/
def eqMatch (i : String) (e : Entry) : Bool :=
  eqQualifies e && iliKey e == i

/-- The number of `equal` entries resolved to a given ILI. -/
def iliCount (l : List Entry) (i : String) : Nat :=
  l.countP (fun e => eqMatch i e)

/-- The keys of `ili_to_entries` in insertion order: the distinct ILIs of
qualifying entries, in order of first occurrence. -/
def firstOccIlis (l : List Entry) : List String :=
  l.foldl
    (fun acc e =>
      if eqQualifies e && !(acc.contains (iliKey e)) then acc ++ [iliKey e]
      else acc)
    []

/-- The `ili_to_entries` dictionary of the second pass, as an ordered
association list: each first-occurrence key maps to all qualifying
entries with that ILI, in input order. -/
def iliGroups (l : List Entry) : List (String × List Entry) :=
  (firstOccIlis l).map (fun i => (i, l.filter (fun e => eqMatch i e)))

/-- Python's `sorted(ili_entries, key=lambda e: int(e['iwn_id']))`: all
sort keys are computed first (`none` models the `ValueError` on a
non-numeric identifier), then a stable sort by the integer key. -/
def sortGroup (g : List Entry) : Option (List Entry) :=
  if g.all (fun e => (pyToInt e.iwn_id).isSome) then
    some (g.insertionSort
      (fun a b => (pyToInt a.iwn_id).getD 0 ≤ (pyToInt b.iwn_id).getD 0))
  else none

/-- Projection of a group member into a `duplicate_ili` issue entry. -/
def mkDupEntryInfo (e : Entry) : DupEntryInfo :=
  { iwn_id := e.iwn_id, hindi_lemmas := e.hindi_lemmas, hindi_gloss := e.hindi_gloss }

/-- The `duplicate_ili` issue recorded for one duplicate group (built
from the sorted members; the head fields come from `sorted_entries[0]`). -/
def mkDupIssue (i : String) (sortedEntries : List Entry) : DupIssue :=
  { ili := i,
    pwn30_key := (sortedEntries.headI).pwn30_key.getD "",
    english_lemmas := (sortedEntries.headI).english_lemmas,
    english_gloss := (sortedEntries.headI).english_gloss,
    iwn_entries := sortedEntries.map mkDupEntryInfo }

/-- The third pass of `detect_and_mark_dupes` over the groups: every
group with more than one member is sorted (which may raise) and recorded
both as a returned dupe group and as a `duplicate_ili` issue. -/
def processGroups : List (String × List Entry) → Option (List DupeGroup × List DupIssue)
  | [] => some ([], [])
  | (i, g) :: rest =>
    if 1 < g.length then
      match sortGroup g with
      | none => none
      | some sorted =>
        match processGroups rest with
        | none => none
        | some (dgs, dis) =>
          some (⟨i, sorted⟩ :: dgs, mkDupIssue i sorted :: dis)
    else processGroups rest

/-- The in-place re-labeling of one entry: a qualifying member of a group
with more than one member has its relation overwritten to `dupe`. -/
def markOne (all : List Entry) (e : Entry) : Entry :=
  if eqQualifies e && decide (1 < iliCount all (iliKey e)) then
    { e with rel := "dupe" }
  else e

/-- The re-labeling applied to the whole entry list. -/
def markAll (l : List Entry) : List Entry := l.map (markOne l)

/-- The grouping-and-marking part of `detect_and_mark_dupes` (its second
and third passes), on already-resolved entries. -/
def mark_dupes (entries : List Entry) (issues : Issues) :
    Option (List Entry × List DupeGroup × Issues) :=
  match processGroups (iliGroups entries) with
  | none => none
  | some (dgs, dis) =>
    some (markAll entries, dgs,
          { issues with duplicate_ili := issues.duplicate_ili ++ dis })

/-- `detect_and_mark_dupes` from `map2ili.py`: resolve every `equal`
entry, group the resolved entries by ILI, and re-label and report every
duplicate group.  `none` models an uncaught exception. -/
def detect_and_mark_dupes (m : String → Option String) (ewn : DB)
    (entries : List Entry) (issues : Issues) :
    Option (List Entry × List DupeGroup × Issues) :=
  match first_pass m ewn entries issues with
  | none => none
  | some (es, iss) => mark_dupes es iss

/-! ### `map2ili.py`: final mapping -/

/-- The `missing_pwn30` issue appended by `build_final_mapping` for a
`hyper` entry (it carries an extra `rel` field). -/
def mkMissingPwn30Hyper (e : Entry) : MissingIssue :=
  { mkMissingPwn30 e with rel := some "hyper" }

/-- The `missing_ili` issue appended by `build_final_mapping` for a
`hyper` entry. -/
def mkMissingIliHyper (e : Entry) (actualKey : Option String) : MissingIssue :=
  { mkMissingIli e actualKey with rel := some "hyper" }

/-- The `missing_omw` issue appended by `build_final_mapping` for a
`hyper` entry. -/
def mkMissingOmwHyper (e : Entry) (pwn30Key : String) : MissingIssue :=
  { mkMissingOmw e pwn30Key with rel := some "hyper" }

/-- One loop step of `build_final_mapping`: an entry that already
carries a (truthy) resolved ILI is inserted directly under its relation;
any other entry is re-resolved through the version map and the synset
lookup, with the failures reported only for `hyper` entries.  `none`
models the uncaught `ValueError` from `lookup_synset`. -/
def bfm_step (m : String → Option String) (ewn : DB)
    (acc : Dict2 × Issues) (e : Entry) : Option (Dict2 × Issues) :=
  if optTruthy e.ili then
    some (d2insert e.rel e.iwn_key (e.ili.getD "") acc.1, acc.2)
  else
    match m e.pwn21_key with
    | none =>
      some (acc.1,
        if e.rel == "hyper" then
          { acc.2 with missing_pwn30 := acc.2.missing_pwn30 ++ [mkMissingPwn30Hyper e] }
        else acc.2)
    | some pwn30Key =>
      match lookup_synset ewn pwn30Key with
      | none => none
      | some (synsetOpt, actualKey) =>
        match synsetOpt with
        | some synset =>
          match synset.ili with
          | some iliId => some (d2insert e.rel e.iwn_key iliId acc.1, acc.2)
          | none =>
            some (acc.1,
              if e.rel == "hyper" then
                { acc.2 with missing_ili := acc.2.missing_ili ++ [mkMissingIliHyper e actualKey] }
              else acc.2)
        | none =>
          some (acc.1,
            if e.rel == "hyper" then
              { acc.2 with missing_omw := acc.2.missing_omw ++ [mkMissingOmwHyper e pwn30Key] }
            else acc.2)

/-- The loop of `build_final_mapping` over the remaining entries. -/
def bfm_loop (m : String → Option String) (ewn : DB) :
    List Entry → Dict2 × Issues → Option (Dict2 × Issues)
  | [], acc => some acc
  | e :: es, acc =>
    match bfm_step m ewn acc e with
    | none => none
    | some acc1 => bfm_loop m ewn es acc1

/-- `build_final_mapping` from `map2ili.py`: builds the two-level
`iwn_to_ili` mapping (relation → source key → ILI) from the entries left
by duplicate detection. -/
def build_final_mapping (m : String → Option String) (ewn : DB)
    (entries : List Entry) (issues : Issues) : Option (Dict2 × Issues) :=
  bfm_loop m ewn entries ([], issues)

/-- The `__main__` pipeline of `map2ili.py` after the input files are
read: load the version map, parse the rows, detect duplicates and build
the final mapping. -/
def run_pipeline (pwnLines : List PwnMapLine) (iwnLines : List String)
    (ewn : DB) : Option (Dict2 × Issues) :=
  let map2130 := load_pwn_map pwnLines
  let m := d1get map2130
  let loaded := load_iwn_map iwnLines issues0
  match detect_and_mark_dupes m ewn loaded.1 loaded.2 with
  | none => none
  | some (entries2, _, iss2) => build_final_mapping m ewn entries2 iss2

/-! ### Lemmas about the tuple order and `pyMax` -/

lemma pairLt_iff (a b : Rat × String) :
    pairLt a b = true ↔ a.1 < b.1 ∨ (a.1 = b.1 ∧ a.2 < b.2) := by
  simp [pairLt]

lemma pairLt_self (a : Rat × String) : pairLt a a = false := by
  simp [pairLt]

lemma pairLt_trans {a b c : Rat × String}
    (h1 : pairLt a b = true) (h2 : pairLt b c = true) : pairLt a c = true := by
  rw [pairLt_iff] at h1 h2 ⊢
  rcases h1 with h1 | ⟨h1, h1'⟩ <;> rcases h2 with h2 | ⟨h2, h2'⟩
  · exact Or.inl (h1.trans h2)
  · exact Or.inl (h2 ▸ h1)
  · exact Or.inl (h1 ▸ h2)
  · exact Or.inr ⟨h1.trans h2, h1'.trans h2'⟩

lemma pairLt_asymm {a b : Rat × String} (h : pairLt a b = true) :
    pairLt b a = false := by
  by_contra hc
  have hba : pairLt b a = true := by
    cases hab : pairLt b a
    · exact absurd hab hc
    · rfl
  have := pairLt_trans h hba
  rw [pairLt_self] at this
  exact Bool.false_ne_true this

lemma pairLt_false_total {a b : Rat × String} (h : pairLt a b = false) :
    pairLt b a = true ∨ a = b := by
  have h' : ¬(a.1 < b.1 ∨ (a.1 = b.1 ∧ a.2 < b.2)) := by
    rw [← pairLt_iff, h]; exact Bool.false_ne_true
  push_neg at h'
  obtain ⟨h1, h2⟩ := h'
  rcases lt_or_eq_of_le h1 with hlt | heq
  · exact Or.inl (by rw [pairLt_iff]; exact Or.inl hlt)
  · rcases lt_or_eq_of_le (h2 heq.symm) with hlt2 | heq2
    · exact Or.inl (by rw [pairLt_iff]; exact Or.inr ⟨heq, hlt2⟩)
    · exact Or.inr (Prod.ext heq.symm heq2.symm)

lemma pairLt_neg_trans {a b c : Rat × String}
    (h1 : pairLt a b = false) (h2 : pairLt b c = false) : pairLt a c = false := by
  rcases pairLt_false_total h1 with hba | rfl
  · rcases pairLt_false_total h2 with hcb | rfl
    · by_contra hc
      have hac : pairLt a c = true := by
        cases h : pairLt a c
        · exact absurd h hc
        · rfl
      have := pairLt_trans (pairLt_trans hcb hba) hac
      rw [pairLt_self] at this
      exact Bool.false_ne_true this
    · exact h1
  · exact h2

lemma pyMax_nil (p : Rat × String) : pyMax p [] = p := rfl

lemma pyMax_cons (p x : Rat × String) (ps : List (Rat × String)) :
    pyMax p (x :: ps) = pyMax (if pairLt p x then x else p) ps := rfl

lemma pyMax_mem (p : Rat × String) (ps : List (Rat × String)) :
    pyMax p ps ∈ p :: ps := by
  induction ps generalizing p with
  | nil => simp [pyMax_nil]
  | cons x ps ih =>
    rw [pyMax_cons]
    rcases List.mem_cons.mp (ih (if pairLt p x then x else p)) with h | h
    · rw [h]
      split <;> simp
    · simp [List.mem_cons, Or.inr (Or.inr h)]

lemma pyMax_not_lt (p : Rat × String) (ps : List (Rat × String)) :
    ∀ q ∈ p :: ps, pairLt (pyMax p ps) q = false := by
  induction ps generalizing p with
  | nil =>
    intro q hq
    rw [List.mem_singleton] at hq
    subst hq
    rw [pyMax_nil]
    exact pairLt_self q
  | cons x ps ih =>
    intro q hq
    rw [pyMax_cons]
    rcases List.mem_cons.mp hq with rfl | hq'
    · by_cases hpx : pairLt q x = true
      · rw [if_pos hpx]
        have hMx := ih x x (List.mem_cons_self x ps)
        by_contra hc
        have hMq : pairLt (pyMax x ps) q = true := by
          cases h : pairLt (pyMax x ps) q
          · exact absurd h hc
          · rfl
        rw [pairLt_trans hMq hpx] at hMx
        exact Bool.false_ne_true hMx.symm
      · have hpx' : pairLt q x = false := by
          cases h : pairLt q x
          · rfl
          · exact absurd h hpx
        rw [if_neg hpx]
        exact ih q q (List.mem_cons_self q ps)
    · rcases List.mem_cons.mp hq' with rfl | hq''
      · by_cases hpx : pairLt p q = true
        · rw [if_pos hpx]
          exact ih q q (List.mem_cons_self q ps)
        · have hpx' : pairLt p q = false := by
            cases h : pairLt p q
            · rfl
            · exact absurd h hpx
          rw [if_neg hpx]
          exact pairLt_neg_trans (ih p p (List.mem_cons_self p ps)) hpx'
      · by_cases hpx : pairLt p x = true
        · rw [if_pos hpx]
          exact ih x q (List.mem_cons_of_mem x hq'')
        · have hpx' : pairLt p x = false := by
            cases h : pairLt p x
            · rfl
            · exact absurd h hpx
          rw [if_neg hpx]
          exact ih p q (List.mem_cons_of_mem p hq'')

/-! ### Claim C2 -/

/-- C2: for every version-mapping file line with at least one
(newer-offset, score) pair, `load_pwn_map` records as the unique
translation for that offset+POS the candidate pair selected by `max`,
which belongs to the candidate list and is not below any candidate in the
Python tuple order (maximum score, exact-score ties broken towards the
pair that sorts last); in particular for candidate pairs
`(0.9, "00001740")` and `(0.95, "00001741")` it selects `"00001741"`. -/
theorem load_pwn_map_selects_max (pos offset21 : String)
    (p : Rat × String) (ps : List (Rat × String)) :
    (pyMax p ps ∈ p :: ps ∧ ∀ q ∈ p :: ps, pairLt (pyMax p ps) q = false) ∧
    d1get (load_pwn_map [(pos, offset21, p :: ps)]) (offset21 ++ "-" ++ pos)
      = some ((pyMax p ps).2 ++ "-" ++ pos) ∧
    d1get (load_pwn_map
        [("n", "12345678", [((9 : ℚ)/10, "00001740"), ((19 : ℚ)/20, "00001741")])])
      "12345678-n" = some "00001741-n" := by
  refine ⟨⟨pyMax_mem p ps, pyMax_not_lt p ps⟩, ?_, ?_⟩
  · simp [load_pwn_map, d1get, List.find?]
  · have h910 : ((9 : ℚ)/10) < 19/20 := by norm_num
    have hsel : pyMax ((9 : ℚ)/10, "00001740") [((19 : ℚ)/20, "00001741")]
        = ((19 : ℚ)/20, "00001741") := by
      rw [pyMax_cons, pyMax_nil, if_pos]
      rw [pairLt_iff]
      exact Or.inl h910
    simp [load_pwn_map, hsel, d1get, List.find?]

/-- Witness for C2 at the concrete candidate pairs of the claim. -/
theorem load_pwn_map_selects_max_witness :
    pyMax ((9 : ℚ)/10, "00001740") [((19 : ℚ)/20, "00001741")]
      ∈ [((9 : ℚ)/10, "00001740"), ((19 : ℚ)/20, "00001741")] ∧
    d1get (load_pwn_map
        [("n", "12345678", [((9 : ℚ)/10, "00001740"), ((19 : ℚ)/20, "00001741")])])
      "12345678-n" = some "00001741-n" :=
  ⟨(load_pwn_map_selects_max "n" "12345678" ((9 : ℚ)/10, "00001740")
      [((19 : ℚ)/20, "00001741")]).1.1,
   (load_pwn_map_selects_max "n" "12345678" ((9 : ℚ)/10, "00001740")
      [((19 : ℚ)/20, "00001741")]).2.2⟩

/-! ### Lemmas about `rsplitDash` -/

lemma span_loop_of_all {P : Char → Bool} :
    ∀ (l1 : List Char) (a : Char) (l2 rs : List Char),
      (∀ c ∈ l1, P c = true) → P a = false →
      List.span.loop P (l1 ++ a :: l2) rs = (rs.reverse ++ l1, a :: l2) := by
  intro l1
  induction l1 with
  | nil =>
    intro a l2 rs h1 ha
    simp [List.span.loop, ha]
  | cons c cs ih =>
    intro a l2 rs h1 ha
    have hc : P c = true := h1 c (List.mem_cons_self c cs)
    simp only [List.cons_append, List.span.loop, hc, List.append_eq]
    rw [ih a l2 (c :: rs) (fun x hx => h1 x (List.mem_cons_of_mem c hx)) ha]
    simp

lemma span_append_of_all {P : Char → Bool}
    (l1 : List Char) (a : Char) (l2 : List Char)
    (h1 : ∀ c ∈ l1, P c = true) (ha : P a = false) :
    (l1 ++ a :: l2).span P = (l1, a :: l2) := by
  unfold List.span
  rw [span_loop_of_all l1 a l2 [] h1 ha]
  simp

/-- A key built as `offset ++ "-" ++ pos` with a dash-free `pos` splits
back into `[offset, pos]` under Python's `rsplit('-', 1)`. -/
lemma rsplitDash_append (o p : String) (hp : ∀ c ∈ p.data, c ≠ '-') :
    rsplitDash (o ++ "-" ++ p) = [o, p] := by
  have hdata : (o ++ "-" ++ p).data = o.data ++ '-' :: p.data := by
    rw [String.data_append, String.data_append]
    simp
  have hrev : (o ++ "-" ++ p).data.reverse = p.data.reverse ++ '-' :: o.data.reverse := by
    rw [hdata]
    simp
  have hall : ∀ c ∈ p.data.reverse, (decide (c ≠ '-')) = true := by
    intro c hc
    simp only [decide_eq_true_iff]
    exact hp c (List.mem_reverse.mp hc)
  have hdash : (decide (('-' : Char) ≠ '-')) = false := by decide
  unfold rsplitDash
  rw [hrev, span_append_of_all p.data.reverse '-' o.data.reverse hall hdash]
  simp

/-! ### Claim C4 -/

/-- C4: for a sense key `offset ++ "-" ++ pos` (with a dash-free POS
letter), `lookup_synset` returns the synset and the key itself when the
direct lookup succeeds; when the POS is the adjective `a` and the direct
lookup fails it retries exactly once with the satellite key
`offset ++ "-s"` and reports the satellite key as the key used; for a
non-adjective POS a failed direct lookup yields `(None, None)` with no
retry; and for an adjective, `(None, None)` is returned iff both the
direct and the satellite lookups fail. -/
theorem lookup_synset_satellite_fallback (ewn : DB) (offset pos : String)
    (hpos : ∀ c ∈ pos.data, c ≠ '-') :
    (∀ s, ewn ("omw-en-" ++ (offset ++ "-" ++ pos)) = some s →
        lookup_synset ewn (offset ++ "-" ++ pos)
          = some (some s, some (offset ++ "-" ++ pos))) ∧
    (pos = "a" → ewn ("omw-en-" ++ (offset ++ "-" ++ pos)) = none →
        lookup_synset ewn (offset ++ "-" ++ pos)
          = some (match ewn ("omw-en-" ++ (offset ++ "-s")) with
                  | some s => (some s, some (offset ++ "-s"))
                  | none => (none, none))) ∧
    (pos ≠ "a" → ewn ("omw-en-" ++ (offset ++ "-" ++ pos)) = none →
        lookup_synset ewn (offset ++ "-" ++ pos) = some (none, none)) ∧
    (pos = "a" →
        (lookup_synset ewn (offset ++ "-" ++ pos) = some (none, none) ↔
          ewn ("omw-en-" ++ (offset ++ "-" ++ pos)) = none ∧
          ewn ("omw-en-" ++ (offset ++ "-s")) = none)) := by
  have hsplit := rsplitDash_append offset pos hpos
  refine ⟨?_, ?_, ?_, ?_⟩
  · intro s hs
    unfold lookup_synset
    rw [hsplit]
    simp [hs]
  · intro hpa hdirect
    subst hpa
    unfold lookup_synset
    rw [hsplit]
    simp only [hdirect]
    cases hsat : ewn ("omw-en-" ++ (offset ++ "-s")) <;> simp [hsat]
  · intro hpa hdirect
    unfold lookup_synset
    rw [hsplit]
    have : (pos == "a") = false := by
      cases h : pos == "a"
      · rfl
      · exact absurd (by simpa using h) hpa
    simp [hdirect, this]
  · intro hpa
    subst hpa
    unfold lookup_synset
    rw [hsplit]
    cases hdirect : ewn ("omw-en-" ++ (offset ++ "-" ++ "a")) <;>
      cases hsat : ewn ("omw-en-" ++ (offset ++ "-s")) <;>
        simp [hdirect, hsat]

/-- The database of the C4 witness: only the satellite identifier is
present. -/
def fallbackDB : DB :=
  fun k => if k == "omw-en-00001740-s" then some ⟨some "i1"⟩ else none

/-- Witness for C4: the `-a` key is absent, the `-s` variant is present,
and the resolver reports the `-s` key as the key used. -/
theorem lookup_synset_satellite_fallback_witness :
    lookup_synset fallbackDB "00001740-a"
      = some (some ⟨some "i1"⟩, some "00001740-s") := by
  have h := (lookup_synset_satellite_fallback fallbackDB "00001740" "a"
      (by decide)).2.1 rfl (by decide)
  have hk : ("00001740" : String) ++ "-" ++ "a" = "00001740-a" := by decide
  rw [hk] at h
  rw [h]
  decide

/-! ### Lemmas about `pySplitTab`, `joinTab` and `replaceNl` -/

lemma splitTabAux_ne_nil (cs acc : List Char) : splitTabAux cs acc ≠ [] := by
  induction cs generalizing acc with
  | nil => simp [splitTabAux]
  | cons c cs ih =>
    unfold splitTabAux
    split
    · simp
    · exact ih (c :: acc)

lemma pySplitTab_ne_nil (s : String) : pySplitTab s ≠ [] := by
  unfold pySplitTab
  simp [splitTabAux_ne_nil]

lemma mem_splitTabAux_chars :
    ∀ (cs acc : List Char) (piece : List Char), piece ∈ splitTabAux cs acc →
      ∀ c ∈ piece, c ∈ cs ∨ c ∈ acc := by
  intro cs
  induction cs with
  | nil =>
    intro acc piece hp c hc
    simp only [splitTabAux, List.mem_singleton] at hp
    subst hp
    exact Or.inr (List.mem_reverse.mp hc)
  | cons d ds ih =>
    intro acc piece hp c hc
    by_cases hd : (d == '\t') = true
    · simp only [splitTabAux, hd, if_true, List.mem_cons] at hp
      rcases hp with rfl | hp
      · exact Or.inr (List.mem_reverse.mp hc)
      · rcases ih [] piece hp c hc with h | h
        · exact Or.inl (List.mem_cons_of_mem d h)
        · exact absurd h (List.not_mem_nil c)
    · have hd' : (d == '\t') = false := by
        cases h : d == '\t'
        · rfl
        · exact absurd h hd
      simp only [splitTabAux, hd', if_false] at hp
      rcases ih (d :: acc) piece hp c hc with h | h
      · exact Or.inl (List.mem_cons_of_mem d h)
      · rcases List.mem_cons.mp h with rfl | h
        · exact Or.inl (List.mem_cons_self c ds)
        · exact Or.inr h

lemma mem_pySplitTab_chars (s : String) (piece : String)
    (hp : piece ∈ pySplitTab s) : ∀ c ∈ piece.data, c ∈ s.data := by
  intro c hc
  simp only [pySplitTab, List.mem_map] at hp
  obtain ⟨l, hl, rfl⟩ := hp
  rcases mem_splitTabAux_chars s.data [] l hl c hc with h | h
  · exact h
  · exact absurd h (List.not_mem_nil c)

lemma headD_mem {α : Type} : ∀ (l : List α) (d : α), l ≠ [] → l.headD d ∈ l := by
  intro l d h
  cases l with
  | nil => exact absurd rfl h
  | cons a as => simp [List.headD]

lemma getLastD_mem {α : Type} : ∀ (l : List α) (d : α), l ≠ [] → l.getLastD d ∈ l
  | [], d, h => absurd rfl h
  | [a], _, _ => by simp [List.getLastD]
  | a :: b :: bs, d, _ => by
    rw [List.getLastD_cons]
    exact List.mem_cons_of_mem a (getLastD_mem (b :: bs) a (by simp))

lemma map_replaceNl_of_no_nl (l : List Char) (hl : '\n' ∉ l) :
    l.map (fun c => if c == '\n' then ' ' else c) = l := by
  have h : ∀ c ∈ l, (fun c => if c == '\n' then ' ' else c) c = id c := by
    intro c hc
    have hcne : c ≠ '\n' := fun h => hl (h ▸ hc)
    simp [hcne]
  rw [List.map_congr_left h, List.map_id]

lemma replaceNl_append_nl (a b : String)
    (ha : '\n' ∉ a.data) (hb : '\n' ∉ b.data) :
    replaceNl (a ++ "\n" ++ b) = a ++ " " ++ b := by
  have key : (a ++ "\n" ++ b).data.map (fun c => if c == '\n' then ' ' else c)
      = (a ++ " " ++ b).data := by
    have hdata : (a ++ "\n" ++ b).data = a.data ++ '\n' :: b.data := by
      rw [String.data_append, String.data_append]
      simp
    have hdata2 : (a ++ " " ++ b).data = a.data ++ ' ' :: b.data := by
      rw [String.data_append, String.data_append]
      simp
    rw [hdata, hdata2, List.map_append, List.map_cons,
        map_replaceNl_of_no_nl a.data ha, map_replaceNl_of_no_nl b.data hb]
    simp
  unfold replaceNl
  rw [key]

/-! ### Claims C6 and C7 -/

/-- C6 counterexample: on a split pair whose first line has 7 columns,
the repair consumes both lines and emits exactly one merged line, but
that line has 8 columns, not 9 as the claim states. -/
theorem fix_tsv_seven_column_merge_not_nine :
    mergeable "a\tb\tc\td\te\tf\tg" "\"x\tDirect" = true ∧
    fix_tsv ["a\tb\tc\td\te\tf\tg", "\"x\tDirect"]
      = (["a\tb\tc\td\te\tf\tg \"x\tDirect"], 1) ∧
    (pySplitTab "a\tb\tc\td\te\tf\tg \"x\tDirect").length = 8 := by
  refine ⟨by decide, by decide, by decide⟩

/-- C6 (amended): for any two consecutive lines matching the split
pattern (first line 7–8 columns, second line exactly 2 columns starting
with a quote; lines hold no embedded newline), the repair consumes both
lines, counts one merge, and emits exactly one merged line whose column
list is the first line's columns with the continuation's first field
joined onto the last column with a space and the continuation's second
field appended as the relation — one more column than the first line
(9 columns exactly when the first line has 8). -/
theorem fix_tsv_merges_split_pair (l1 l2 : String) (rest : List String)
    (hm : mergeable l1 l2 = true)
    (h1 : '\n' ∉ l1.data) (h2 : '\n' ∉ l2.data) :
    fix_tsv (l1 :: l2 :: rest)
      = (joinTab ((pySplitTab l1).dropLast ++
            [(pySplitTab l1).getLastD "" ++ " " ++ (pySplitTab l2).headD "",
             (pySplitTab l2).getLastD ""]) :: (fix_tsv rest).1,
         (fix_tsv rest).2 + 1) ∧
    ((pySplitTab l1).dropLast ++
        [(pySplitTab l1).getLastD "" ++ " " ++ (pySplitTab l2).headD "",
         (pySplitTab l2).getLastD ""]).length
      = (pySplitTab l1).length + 1 := by
  constructor
  · have hlast : '\n' ∉ ((pySplitTab l1).getLastD "").data := fun hc =>
      h1 (mem_pySplitTab_chars l1 _ (getLastD_mem _ "" (pySplitTab_ne_nil l1)) '\n' hc)
    have hhead : '\n' ∉ ((pySplitTab l2).headD "").data := fun hc =>
      h2 (mem_pySplitTab_chars l2 _ (headD_mem _ "" (pySplitTab_ne_nil l2)) '\n' hc)
    show (if mergeable l1 l2 then _ else _) = _
    rw [if_pos hm]
    simp only [mergeLines]
    rw [replaceNl_append_nl _ _ hlast hhead]
  · have hne := pySplitTab_ne_nil l1
    rw [List.length_append, List.length_dropLast]
    have hpos : 0 < (pySplitTab l1).length := List.length_pos.mpr hne
    simp only [List.length_cons, List.length_nil]
    omega

/-- Witness for C6 (amended) on an 8-column first line: the merged line
has 9 columns. -/
theorem fix_tsv_merges_split_pair_witness :
    fix_tsv ["a\tb\tc\td\te\tf\tg\th", "\"x\tDirect"]
      = (["a\tb\tc\td\te\tf\tg\th \"x\tDirect"], 1) ∧
    (pySplitTab "a\tb\tc\td\te\tf\tg\th \"x\tDirect").length = 9 := by
  have h := (fix_tsv_merges_split_pair "a\tb\tc\td\te\tf\tg\th" "\"x\tDirect" []
      (by decide) (by decide) (by decide)).1
  rw [h]
  refine ⟨by decide, by decide⟩

/-- C7 counterexample: an input file of two lines forming a split pair
produces one output line, so the repair is not line-count-preserving. -/
theorem fix_tsv_not_line_count_preserving :
    (fix_tsv ["a1\tb\tc\td\te\tf\tg\th", "\"y\tDirect"]).1.length ≠
      (["a1\tb\tc\td\te\tf\tg\th", "\"y\tDirect"] : List String).length := by
  decide

/-- C7 (amended): the repair writes one output line per input line except
for split-pair merges, each of which consumes two lines and emits one:
the number of output lines plus the number of merges equals the number of
input lines (so the `WordN` normalization alone is count-preserving). -/
theorem fix_tsv_line_count (lines : List String) :
    (fix_tsv lines).1.length + (fix_tsv lines).2 = lines.length := by
  induction lines using fix_tsv.induct with
  | case1 => simp [fix_tsv]
  | case2 line => simp [fix_tsv]
  | case3 line next rest hm ih =>
    simp only [fix_tsv, if_pos hm, List.length_cons]
    omega
  | case4 line next rest hm ih =>
    simp only [fix_tsv, if_neg hm, List.length_cons]
    simp only [List.length_cons] at ih
    generalize hA : (fix_tsv (next :: rest)).1.length = A at ih ⊢
    generalize hB : (fix_tsv (next :: rest)).2 = B at ih ⊢
    omega

/-! ### Claim C5 -/

/-- The record built by `parse_line` from a validated row. -/
def recordOfRow (row : List String) : Entry :=
  { iwn_id := row.getD 0 ""
    iwn_pos := row.getD 1 ""
    pwn21_offset := row.getD 2 ""
    pwn21_pos := row.getD 3 ""
    english_lemmas := row.getD 4 ""
    english_gloss := row.getD 5 ""
    hindi_lemmas := row.getD 6 ""
    hindi_gloss := row.getD 7 ""
    original_rel := pyStrip (row.getLastD "")
    rel := if pyStrip (row.getLastD "") = "Direct" then "equal" else "hyper"
    iwn_key := row.getD 0 "" ++ "_" ++ (posLookup (row.getD 1 "")).getD ""
    pwn21_key := format08d ((pyToInt (row.getD 2 "")).getD 0) ++ "-"
      ++ (posLookup (row.getD 3 "")).getD "" }

/-- The validity condition of `load_iwn_map` on a split row: at least 9
columns, a stripped relation label `Direct` or `Hypernymy`, recognized
POS tags in the source and target columns, and a numeric offset. -/
def validRow (row : List String) : Prop :=
  9 ≤ row.length ∧
  (pyStrip (row.getLastD "") = "Direct" ∨ pyStrip (row.getLastD "") = "Hypernymy") ∧
  (posLookup (row.getD 1 "")).isSome = true ∧
  (posLookup (row.getD 3 "")).isSome = true ∧
  (pyToInt (row.getD 2 "")).isSome = true

/-- C5: for every non-header input line, `load_iwn_map` appends exactly
one record when the row is valid (at least 9 columns, relation `Direct`
or `Hypernymy`, recognized POS tags, numeric offset) — with columns 0–7,
the stripped relation label, the collapsed relation, and the derived
`{iwn_id}_{pos}` and `{offset:08d}-{pos}` keys preserved in the record —
and otherwise appends exactly one malformed-line issue carrying the line
number and the line, and produces no record; being a total function it
raises no exception on any input line. -/
theorem load_iwn_map_line_dichotomy (n : Nat) (line : String)
    (acc : List Entry × Issues) (row : List String)
    (hrow : pySplitTab (pyStrip line) = row)
    (hh : row.headD "" ≠ "iwn_id") :
    (validRow row →
      parse_line n line = .record (recordOfRow row) ∧
      load_step acc (n, line) = (acc.1 ++ [recordOfRow row], acc.2)) ∧
    (¬ validRow row →
      ∃ m : MalformedIssue, m.line_number = n ∧ m.original_line = pyRstripNl line ∧
        parse_line n line = .malformed m ∧
        load_step acc (n, line)
          = (acc.1, { acc.2 with malformed_lines := acc.2.malformed_lines ++ [m] })) := by
  constructor
  · rintro ⟨hlen, hrel, hpos1, hpos3, hint⟩
    obtain ⟨p1, hp1⟩ := Option.isSome_iff_exists.mp hpos1
    obtain ⟨p3, hp3⟩ := Option.isSome_iff_exists.mp hpos3
    obtain ⟨off, hoff⟩ := Option.isSome_iff_exists.mp hint
    have hparse : parse_line n line = .record (recordOfRow row) := by
      unfold parse_line
      rw [hrow]
      rw [if_neg (by simpa using hh)]
      rw [if_neg (by omega)]
      simp only [List.getD_eq_getElem?_getD, List.getLastD_eq_getLast?] at hp1 hp3 hoff
      rcases hrel with hrel | hrel <;>
        · simp only [List.getLastD_eq_getLast?] at hrel
          simp [recordOfRow, hrel, hp1, hp3, hoff]
    exact ⟨hparse, by simp [load_step, hparse]⟩
  · intro hinvalid
    by_cases hlen : row.length < 9
    · have hparse : parse_line n line
          = .malformed ⟨n, "only " ++ toString row.length ++ " columns", pyRstripNl line⟩ := by
        unfold parse_line
        rw [hrow]
        rw [if_neg (by simpa using hh)]
        rw [if_pos hlen]
      exact ⟨_, rfl, rfl, hparse, by simp [load_step, hparse]⟩
    · have hlen' : 9 ≤ row.length := by omega
      by_cases hrel : pyStrip (row.getLastD "") = "Direct" ∨ pyStrip (row.getLastD "") = "Hypernymy"
      · by_cases hpos1 : (posLookup (row.getD 1 "")).isSome = true
        · by_cases hpos3 : (posLookup (row.getD 3 "")).isSome = true
          · by_cases hint : (pyToInt (row.getD 2 "")).isSome = true
            · exact absurd ⟨hlen', hrel, hpos1, hpos3, hint⟩ hinvalid
            · have hoff : pyToInt (row.getD 2 "") = none := by
                cases h : pyToInt (row.getD 2 "")
                · rfl
                · exact absurd (Option.isSome_iff_exists.mpr ⟨_, h⟩) hint
              obtain ⟨p1, hp1⟩ := Option.isSome_iff_exists.mp hpos1
              obtain ⟨p3, hp3⟩ := Option.isSome_iff_exists.mp hpos3
              have hparse : parse_line n line
                  = .malformed ⟨n, "invalid PWN offset '" ++ row.getD 2 "" ++ "'",
                      pyRstripNl line⟩ := by
                unfold parse_line
                rw [hrow, if_neg (by simpa using hh), if_neg hlen]
                simp only [List.getD_eq_getElem?_getD, List.getLastD_eq_getLast?]
                  at hp1 hp3 hoff
                rcases hrel with hrel | hrel <;>
                  · simp only [List.getLastD_eq_getLast?] at hrel
                    simp [hrel, hp1, hp3, hoff]
              exact ⟨_, rfl, rfl, hparse, by simp [load_step, hparse]⟩
          · have hp3 : posLookup (row.getD 3 "") = none := by
              cases h : posLookup (row.getD 3 "")
              · rfl
              · exact absurd (Option.isSome_iff_exists.mpr ⟨_, h⟩) hpos3
            obtain ⟨p1, hp1⟩ := Option.isSome_iff_exists.mp hpos1
            have hparse : parse_line n line
                = .malformed ⟨n, "unknown PWN POS '" ++ row.getD 3 "" ++ "'",
                    pyRstripNl line⟩ := by
              unfold parse_line
              rw [hrow, if_neg (by simpa using hh), if_neg hlen]
              simp only [List.getD_eq_getElem?_getD, List.getLastD_eq_getLast?] at hp1 hp3
              rcases hrel with hrel | hrel <;>
                · simp only [List.getLastD_eq_getLast?] at hrel
                  simp [hrel, hp1, hp3]
            exact ⟨_, rfl, rfl, hparse, by simp [load_step, hparse]⟩
        · have hp1 : posLookup (row.getD 1 "") = none := by
            cases h : posLookup (row.getD 1 "")
            · rfl
            · exact absurd (Option.isSome_iff_exists.mpr ⟨_, h⟩) hpos1
          have hparse : parse_line n line
              = .malformed ⟨n, "unknown IWN POS '" ++ row.getD 1 "" ++ "'",
                  pyRstripNl line⟩ := by
            unfold parse_line
            rw [hrow, if_neg (by simpa using hh), if_neg hlen]
            simp only [List.getD_eq_getElem?_getD, List.getLastD_eq_getLast?] at hp1
            rcases hrel with hrel | hrel <;>
              · simp only [List.getLastD_eq_getLast?] at hrel
                simp [hrel, hp1]
          exact ⟨_, rfl, rfl, hparse, by simp [load_step, hparse]⟩
      · push_neg at hrel
        obtain ⟨hrelD, hrelH⟩ := hrel
        have hparse : parse_line n line
            = .malformed ⟨n, "unknown rel '" ++ pyStrip (row.getLastD "") ++ "'",
                pyRstripNl line⟩ := by
          unfold parse_line
          rw [hrow, if_neg (by simpa using hh), if_neg hlen]
          simp only [List.getLastD_eq_getLast?] at hrelD hrelH ⊢
          simp [hrelD, hrelH]
        exact ⟨_, rfl, rfl, hparse, by simp [load_step, hparse]⟩

/-- Witness for C5: a valid 9-column row yields exactly its record, and
an invalid row (unknown POS tag) yields exactly one malformed issue. -/
theorem load_iwn_map_line_dichotomy_witness :
    parse_line 1 "IWN1\tNOUN\t1740\tNOUN\tcat\tgloss\thl\thg\tDirect"
      = .record (recordOfRow ["IWN1", "NOUN", "1740", "NOUN", "cat", "gloss", "hl", "hg", "Direct"]) ∧
    load_step ([], issues0) (1, "IWN1\tNOUN\t1740\tNOUN\tcat\tgloss\thl\thg\tDirect")
      = ([recordOfRow ["IWN1", "NOUN", "1740", "NOUN", "cat", "gloss", "hl", "hg", "Direct"]],
         issues0) := by
  have h := (load_iwn_map_line_dichotomy 1 "IWN1\tNOUN\t1740\tNOUN\tcat\tgloss\thl\thg\tDirect"
      ([], issues0) ["IWN1", "NOUN", "1740", "NOUN", "cat", "gloss", "hl", "hg", "Direct"]
      (by decide) (by decide)).1
      ⟨by decide, Or.inl (by decide), by decide, by decide, by decide⟩
  exact ⟨h.1, by rw [h.2]; decide⟩

/-! ### Lemmas about the two-level mapping -/

lemma d1get_d1insert_same (k v : String) (d : List (String × String)) :
    d1get (d1insert k v d) k = some v := by
  induction d with
  | nil =>
    show d1get [(k, v)] k = some v
    simp [d1get, List.find?_cons_of_pos]
  | cons p rest ih =>
    obtain ⟨k0, v0⟩ := p
    by_cases h : (k0 == k) = true
    · simp [d1insert, h, d1get, List.find?]
    · have h' : (k0 == k) = false := by
        cases hb : k0 == k
        · rfl
        · exact absurd hb h
      simp only [d1insert, h', Bool.false_eq_true, if_false]
      simpa [d1get, List.find?, h'] using ih

lemma d1get_isSome_d1insert (k' v k : String) (d : List (String × String))
    (h : (d1get d k).isSome = true) :
    (d1get (d1insert k' v d) k).isSome = true := by
  induction d with
  | nil => simp [d1get, List.find?] at h
  | cons p rest ih =>
    obtain ⟨k0, v0⟩ := p
    by_cases hk' : (k0 == k') = true
    · by_cases hk : (k0 == k) = true
      · simp [d1insert, hk', d1get, List.find?, hk]
      · have hk2 : (k0 == k) = false := by
          cases hb : k0 == k
          · rfl
          · exact absurd hb hk
        simp only [d1insert, hk', if_true]
        simp only [d1get, List.find?, hk2] at h ⊢
        exact h
    · have hk'2 : (k0 == k') = false := by
        cases hb : k0 == k'
        · rfl
        · exact absurd hb hk'
      by_cases hk : (k0 == k) = true
      · simp [d1insert, hk'2, d1get, List.find?, hk]
      · have hk2 : (k0 == k) = false := by
          cases hb : k0 == k
          · rfl
          · exact absurd hb hk
        simp only [d1insert, hk'2, Bool.false_eq_true, if_false]
        simp only [d1get, List.find?, hk2] at h ⊢
        exact ih h

lemma d2get_d2insert_same (rel k v : String) (d : Dict2) :
    d2get (d2insert rel k v d) rel k = some v := by
  induction d with
  | nil => simp [d2insert, d2get, d1get, List.find?_cons_of_pos]
  | cons p rest ih =>
    obtain ⟨r0, d0⟩ := p
    by_cases h : (r0 == rel) = true
    · simp [d2insert, h, d2get, List.find?, d1get_d1insert_same]
    · have h' : (r0 == rel) = false := by
        cases hb : r0 == rel
        · rfl
        · exact absurd hb h
      simp only [d2insert, h', Bool.false_eq_true, if_false]
      simpa [d2get, List.find?, h'] using ih

lemma d2get_isSome_d2insert (rel' k' v rel k : String) (d : Dict2)
    (h : (d2get d rel k).isSome = true) :
    (d2get (d2insert rel' k' v d) rel k).isSome = true := by
  induction d with
  | nil => simp [d2get, List.find?] at h
  | cons p rest ih =>
    obtain ⟨r0, d0⟩ := p
    by_cases hr' : (r0 == rel') = true
    · by_cases hr : (r0 == rel) = true
      · simp only [d2insert, hr', if_true]
        simp only [d2get, List.find?, hr] at h ⊢
        exact d1get_isSome_d1insert k' v k d0 h
      · have hr2 : (r0 == rel) = false := by
          cases hb : r0 == rel
          · rfl
          · exact absurd hb hr
        simp only [d2insert, hr', if_true]
        simp only [d2get, List.find?, hr2] at h ⊢
        exact h
    · have hr'2 : (r0 == rel') = false := by
        cases hb : r0 == rel'
        · rfl
        · exact absurd hb hr'
      by_cases hr : (r0 == rel) = true
      · simp only [d2insert, hr'2, Bool.false_eq_true, if_false]
        simp only [d2get, List.find?, hr] at h ⊢
        exact h
      · have hr2 : (r0 == rel) = false := by
          cases hb : r0 == rel
          · rfl
          · exact absurd hb hr
        simp only [d2insert, hr'2, Bool.false_eq_true, if_false]
        simp only [d2get, List.find?, hr2] at h ⊢
        exact ih h

/-- One `build_final_mapping` step never removes a present key. -/
lemma bfm_step_preserves (m : String → Option String) (ewn : DB)
    (acc acc1 : Dict2 × Issues) (e : Entry) (rel k : String)
    (hstep : bfm_step m ewn acc e = some acc1)
    (h : (d2get acc.1 rel k).isSome = true) :
    (d2get acc1.1 rel k).isSome = true := by
  unfold bfm_step at hstep
  split at hstep
  · obtain rfl := Option.some_injective _ hstep
    exact d2get_isSome_d2insert _ _ _ _ _ _ h
  · split at hstep
    · obtain rfl := Option.some_injective _ hstep
      exact h
    · split at hstep
      · exact Option.noConfusion hstep
      · split at hstep
        · split at hstep
          · obtain rfl := Option.some_injective _ hstep
            exact d2get_isSome_d2insert _ _ _ _ _ _ h
          · obtain rfl := Option.some_injective _ hstep
            exact h
        · obtain rfl := Option.some_injective _ hstep
          exact h

/-- The `build_final_mapping` loop never removes a present key. -/
lemma bfm_loop_preserves (m : String → Option String) (ewn : DB) :
    ∀ (es : List Entry) (acc : Dict2 × Issues) (out : Dict2) (iss : Issues)
      (rel k : String),
      bfm_loop m ewn es acc = some (out, iss) →
      (d2get acc.1 rel k).isSome = true →
      (d2get out rel k).isSome = true := by
  intro es
  induction es with
  | nil =>
    intro acc out iss rel k hrun h
    obtain rfl := Option.some_injective _ hrun
    exact h
  | cons e0 es ih =>
    intro acc out iss rel k hrun h
    unfold bfm_loop at hrun
    cases hstep : bfm_step m ewn acc e0 with
    | none => rw [hstep] at hrun; exact absurd hrun (by simp)
    | some acc1 =>
      rw [hstep] at hrun
      exact ih acc1 out iss rel k hrun
        (bfm_step_preserves m ewn acc acc1 e0 rel k hstep h)

/-! ### Claim C8 -/

/-- A parsed record with an arbitrary source identifier, as used by the
C8 failing input (the parser never validates that `iwn_id` is numeric). -/
def nonNumericEntry (iwnid : String) : Entry :=
  { iwn_id := iwnid, iwn_pos := "NOUN", pwn21_offset := "1", pwn21_pos := "NOUN",
    english_lemmas := "", english_gloss := "", hindi_lemmas := "", hindi_gloss := "",
    original_rel := "Direct", rel := "equal", iwn_key := iwnid ++ "_n",
    pwn21_key := "00000001-n" }

/-- C8 is a code bug: two parsed records with non-numeric source
identifiers `X` and `Y` that both resolve via `equal` to the same
interlingual identity make `sorted(..., key=lambda e: int(e['iwn_id']))`
raise an uncaught `ValueError` inside `detect_and_mark_dupes`, aborting
the batch on a per-record problem (modelled by the `none` result). -/
theorem detect_and_mark_dupes_crashes_on_non_numeric_id :
    detect_and_mark_dupes (fun _ => some "00000001-n") (fun _ => some ⟨some "i1"⟩)
      [nonNumericEntry "X", nonNumericEntry "Y"] issues0 = none := by
  decide

/-! ### Claim C9 -/

/-- The version-mapping file of the C9 scenario: PWN 2.1 offset
`00001740` maps to PWN 3.0 offset `00001741` with score 0.9. -/
def pwnLines9 : List PwnMapLine := [("n", "00001740", [((9 : ℚ)/10, "00001741")])]

/-- The database of the C9 scenario: `omw-en-00001741-n` exists and has
interlingual id `i900`. -/
def db9 : DB := fun k => if k == "omw-en-00001741-n" then some ⟨some "i900"⟩ else none

/-- C9 counterexample: with the claim's input row — whose PWN POS column
holds the letter `n` — the parser rejects the row (`PosTag` keys are the
uppercase tag names), so the pipeline completes with a final mapping that
does not contain `equal: {"IWN1_n": "i900"}`. -/
theorem run_pipeline_rejects_lowercase_pwn_pos :
    (run_pipeline pwnLines9 ["IWN1\tNOUN\t1740\tn\tcat\tgloss\thl\thg\tDirect"] db9).map
        (fun r => d2get r.1 "equal" "IWN1_n") = some none := by
  decide

/-- C9 (amended): end-to-end with the PWN POS column carrying the
uppercase tag `NOUN` (as the parser requires), a mapping file translating
`00001740` to `00001741` with score 0.9, and a database entry
`omw-en-00001741-n` with interlingual id `i900`, the final mapping
contains `equal: {"IWN1_n": "i900"}`. -/
theorem run_pipeline_end_to_end :
    (run_pipeline pwnLines9 ["IWN1\tNOUN\t1740\tNOUN\tcat\tgloss\thl\thg\tDirect"] db9).map
        (fun r => d2get r.1 "equal" "IWN1_n") = some (some "i900") := by
  decide

/-! ### Claim C10 -/

/-- C10 concrete scenario: an `equal` record with a resolved ILI. -/
def entryEq10 : Entry :=
  { iwn_id := "1", iwn_pos := "NOUN", pwn21_offset := "1", pwn21_pos := "NOUN",
    english_lemmas := "", english_gloss := "", hindi_lemmas := "", hindi_gloss := "",
    original_rel := "Direct", rel := "equal", iwn_key := "A_n", pwn21_key := "00000001-n",
    ili := some "i1" }

/-- C10 concrete scenario: a `hyper` record resolved lazily. -/
def entryHyp10 : Entry :=
  { iwn_id := "2", iwn_pos := "NOUN", pwn21_offset := "2", pwn21_pos := "NOUN",
    english_lemmas := "", english_gloss := "", hindi_lemmas := "", hindi_gloss := "",
    original_rel := "Hypernymy", rel := "hyper", iwn_key := "B_n", pwn21_key := "00000002-n" }

/-- C10 concrete scenario: a record re-labeled `dupe` that carries a
resolved ILI. -/
def entryDup10 : Entry :=
  { iwn_id := "3", iwn_pos := "NOUN", pwn21_offset := "3", pwn21_pos := "NOUN",
    english_lemmas := "", english_gloss := "", hindi_lemmas := "", hindi_gloss := "",
    original_rel := "Direct", rel := "dupe", iwn_key := "C_n", pwn21_key := "00000003-n",
    ili := some "i3" }

/-- The version map of the C10 concrete scenario. -/
def map10 : String → Option String :=
  fun k => if k == "00000002-n" then some "00000002-n" else none

/-- The database of the C10 concrete scenario. -/
def db10 : DB := fun k => if k == "omw-en-00000002-n" then some ⟨some "i2"⟩ else none

/-- C10: every record re-labeled `dupe` that carries a resolved
interlingual identity is kept by the final mapping builder under the
top-level relation key `dupe`; concretely, the final mapping can hold the
three top-level keys `equal`, `hyper` and `dupe` at once. -/
theorem build_final_mapping_keeps_dupes (m : String → Option String) (ewn : DB)
    (entries : List Entry) (issues : Issues) (out : Dict2) (iss : Issues) (e : Entry)
    (he : e ∈ entries) (hrel : e.rel = "dupe") (hili : optTruthy e.ili = true)
    (hrun : build_final_mapping m ewn entries issues = some (out, iss)) :
    (d2get out "dupe" e.iwn_key).isSome = true ∧
    (build_final_mapping map10 db10 [entryEq10, entryHyp10, entryDup10] issues0).map
        (fun r => r.1.map Prod.fst) = some ["equal", "hyper", "dupe"] := by
  constructor
  · have key : ∀ (es : List Entry) (acc : Dict2 × Issues), e ∈ es →
        bfm_loop m ewn es acc = some (out, iss) →
        (d2get out "dupe" e.iwn_key).isSome = true := by
      intro es
      induction es with
      | nil => intro acc he' _; exact absurd he' (List.not_mem_nil e)
      | cons e0 es ih =>
        intro acc he' hrun'
        unfold bfm_loop at hrun'
        cases hstep : bfm_step m ewn acc e0 with
        | none => rw [hstep] at hrun'; exact Option.noConfusion hrun'
        | some acc1 =>
          rw [hstep] at hrun'
          rcases List.mem_cons.mp he' with rfl | he''
          · have hdict : (d2get acc1.1 "dupe" e.iwn_key).isSome = true := by
              unfold bfm_step at hstep
              rw [if_pos hili] at hstep
              obtain rfl := Option.some_injective _ hstep
              rw [hrel] at hstep ⊢
              simp [d2get_d2insert_same]
            exact bfm_loop_preserves m ewn es acc1 out iss "dupe" e.iwn_key hrun' hdict
          · exact ih acc1 he'' hrun'
    exact key entries ([], issues) he hrun
  · decide

/-- Witness for C10: the `dupe` record of the concrete scenario is kept
under the `dupe` key of the final mapping. -/
theorem build_final_mapping_keeps_dupes_witness :
    (build_final_mapping map10 db10 [entryEq10, entryHyp10, entryDup10] issues0).map
        (fun r => (d2get r.1 "dupe" "C_n").isSome) = some true := by
  cases hres : build_final_mapping map10 db10 [entryEq10, entryHyp10, entryDup10] issues0 with
  | none => exact absurd hres (by decide)
  | some r =>
    have h := (build_final_mapping_keeps_dupes map10 db10
        [entryEq10, entryHyp10, entryDup10] issues0 r.1 r.2 entryDup10
        (by simp) rfl rfl (by rw [hres])).1
    simpa using h

/-! ### Lemmas about grouping by ILI -/

/-- The fold step building the insertion-ordered key list. -/
def foStep (acc : List String) (e : Entry) : List String :=
  if eqQualifies e && !(acc.contains (iliKey e)) then acc ++ [iliKey e] else acc

lemma band_true {a b : Bool} (h : (a && b) = true) : a = true ∧ b = true := by
  simpa using h

lemma firstOccIlis_eq_foldl (l : List Entry) :
    firstOccIlis l = l.foldl foStep [] := rfl

lemma mem_foldl_foStep (l : List Entry) :
    ∀ (acc : List String) (i : String),
      i ∈ l.foldl foStep acc ↔
        i ∈ acc ∨ ∃ e, e ∈ l ∧ eqQualifies e = true ∧ iliKey e = i := by
  induction l with
  | nil => intro acc i; simp
  | cons e0 l ih =>
    intro acc i
    rw [List.foldl_cons, ih]
    constructor
    · rintro (hacc | ⟨e, hel, hq, hk⟩)
      · by_cases hc : (eqQualifies e0 && !(acc.contains (iliKey e0))) = true
        · rw [foStep, if_pos hc] at hacc
          rcases List.mem_append.mp hacc with h | h
          · exact Or.inl h
          · rw [List.mem_singleton] at h
            subst h
            exact Or.inr ⟨e0, List.mem_cons_self e0 l, (band_true hc).1, rfl⟩
        · rw [foStep, if_neg hc] at hacc
          exact Or.inl hacc
      · exact Or.inr ⟨e, List.mem_cons_of_mem e0 hel, hq, hk⟩
    · rintro (hacc | ⟨e, hel, hq, hk⟩)
      · left
        by_cases hc : (eqQualifies e0 && !(acc.contains (iliKey e0))) = true
        · rw [foStep, if_pos hc]
          exact List.mem_append_left _ hacc
        · rw [foStep, if_neg hc]
          exact hacc
      · rcases List.mem_cons.mp hel with rfl | hel'
        · left
          by_cases hc : (eqQualifies e && !(acc.contains (iliKey e))) = true
          · rw [foStep, if_pos hc]
            exact List.mem_append_right _ (by simp [hk])
          · rw [foStep, if_neg hc]
            have hcont : acc.contains (iliKey e) = true := by
              by_contra hcontra
              have h1 : acc.contains (iliKey e) = false := by
                cases hb : acc.contains (iliKey e)
                · rfl
                · exact absurd hb hcontra
              have h2 : iliKey e ∉ acc := by simpa using h1
              exact hc (by simp [hq, h2])
            rw [← hk]
            simpa using hcont
        · exact Or.inr ⟨e, hel', hq, hk⟩

lemma mem_firstOccIlis (l : List Entry) (i : String) :
    i ∈ firstOccIlis l ↔ ∃ e, e ∈ l ∧ eqQualifies e = true ∧ iliKey e = i := by
  rw [firstOccIlis_eq_foldl, mem_foldl_foStep]
  simp

lemma nodup_foldl_foStep (l : List Entry) :
    ∀ acc : List String, acc.Nodup → (l.foldl foStep acc).Nodup := by
  induction l with
  | nil => intro acc h; simpa using h
  | cons e0 l ih =>
    intro acc h
    rw [List.foldl_cons]
    apply ih
    by_cases hc : (eqQualifies e0 && !(acc.contains (iliKey e0))) = true
    · rw [foStep, if_pos hc]
      have hnm : iliKey e0 ∉ acc := by
        have := (band_true hc).2
        simp only [Bool.not_eq_true'] at this
        simpa using this
      simp [List.nodup_append, h, hnm]
    · rw [foStep, if_neg hc]
      exact h

lemma firstOccIlis_nodup (l : List Entry) : (firstOccIlis l).Nodup := by
  rw [firstOccIlis_eq_foldl]
  exact nodup_foldl_foStep l [] List.nodup_nil

lemma iliGroups_keys (l : List Entry) :
    (iliGroups l).map Prod.fst = firstOccIlis l := by
  unfold iliGroups
  rw [List.map_map]
  have h : (Prod.fst ∘ fun i => (i, l.filter (fun e => eqMatch i e))) = id := rfl
  rw [h, List.map_id]

lemma mem_iliGroups (l : List Entry) (i : String) (g : List Entry)
    (h : (i, g) ∈ iliGroups l) : g = l.filter (fun e => eqMatch i e) := by
  unfold iliGroups at h
  obtain ⟨j, _, hj⟩ := List.mem_map.mp h
  have h1 : j = i := congrArg Prod.fst hj
  subst h1
  exact (congrArg Prod.snd hj).symm

lemma iliGroups_mem_of_count (l : List Entry) (i : String)
    (hc : 0 < iliCount l i) :
    (i, l.filter (fun e => eqMatch i e)) ∈ iliGroups l := by
  have hne : ∃ e, e ∈ l ∧ eqMatch i e = true := by
    rw [iliCount, List.countP_pos_iff] at hc
    simpa using hc
  obtain ⟨e, hel, hm⟩ := hne
  have hq : eqQualifies e = true := (band_true hm).1
  have hk : iliKey e = i := by
    have := (band_true hm).2
    simpa using this
  have : i ∈ firstOccIlis l := (mem_firstOccIlis l i).mpr ⟨e, hel, hq, hk⟩
  exact List.mem_map.mpr ⟨i, this, rfl⟩

/-! ### Lemmas about `sortGroup` and `processGroups` -/

/-- The sort key used in `sortGroup`. -/
def entryKeyLe (a b : Entry) : Prop :=
  (pyToInt a.iwn_id).getD 0 ≤ (pyToInt b.iwn_id).getD 0

instance : DecidableRel entryKeyLe := fun a b => by
  unfold entryKeyLe
  infer_instance

instance : IsTotal Entry entryKeyLe := ⟨fun a b => le_total _ _⟩

instance : IsTrans Entry entryKeyLe := ⟨fun _ _ _ hab hbc => le_trans hab hbc⟩

lemma sortGroup_eq (g : List Entry) (sg : List Entry) (h : sortGroup g = some sg) :
    sg = g.insertionSort entryKeyLe ∧ ∀ e ∈ g, (pyToInt e.iwn_id).isSome = true := by
  unfold sortGroup at h
  split at h
  next hall =>
    refine ⟨(Option.some_injective _ h).symm, ?_⟩
    intro e he
    exact (List.all_eq_true.mp hall) e he
  next => exact Option.noConfusion h

lemma sortGroup_perm (g sg : List Entry) (h : sortGroup g = some sg) : sg.Perm g := by
  rw [(sortGroup_eq g sg h).1]
  exact List.perm_insertionSort entryKeyLe g

lemma sortGroup_sorted (g sg : List Entry) (h : sortGroup g = some sg) :
    sg.Pairwise entryKeyLe := by
  rw [(sortGroup_eq g sg h).1]
  exact List.sorted_insertionSort entryKeyLe g

lemma sortGroup_keys (g sg : List Entry) (h : sortGroup g = some sg) :
    ∀ e ∈ sg, (pyToInt e.iwn_id).isSome = true := by
  intro e he
  exact (sortGroup_eq g sg h).2 e ((sortGroup_perm g sg h).mem_iff.mp he)

lemma processGroups_all_small :
    ∀ gl : List (String × List Entry), (∀ p ∈ gl, ¬ 1 < p.2.length) →
      processGroups gl = some ([], []) := by
  intro gl
  induction gl with
  | nil => intro _; rfl
  | cons p rest ih =>
    intro h
    obtain ⟨i, g⟩ := p
    have hg := h (i, g) (List.mem_cons_self _ _)
    unfold processGroups
    rw [if_neg hg]
    exact ih (fun q hq => h q (List.mem_cons_of_mem _ hq))

lemma processGroups_ili_mem :
    ∀ (gl : List (String × List Entry)) (dgs : List DupeGroup) (dis : List DupIssue),
      processGroups gl = some (dgs, dis) →
      ∀ d ∈ dis, d.ili ∈ gl.map Prod.fst := by
  intro gl
  induction gl with
  | nil =>
    intro dgs dis h d hd
    injection Option.some_injective _ h with h1 h2
    subst h2
    exact absurd hd (List.not_mem_nil d)
  | cons p rest ih =>
    intro dgs dis h d hd
    obtain ⟨i, g⟩ := p
    unfold processGroups at h
    by_cases hlen : 1 < g.length
    · rw [if_pos hlen] at h
      cases hs : sortGroup g with
      | none => rw [hs] at h; exact Option.noConfusion h
      | some sg =>
        rw [hs] at h
        cases hr : processGroups rest with
        | none => rw [hr] at h; exact Option.noConfusion h
        | some pr =>
          obtain ⟨dgs', dis'⟩ := pr
          rw [hr] at h
          injection Option.some_injective _ h with h1 h2
          subst h2
          rcases List.mem_cons.mp hd with rfl | hd'
          · exact List.mem_cons_self _ _
          · exact List.mem_cons_of_mem _ (ih dgs' dis' hr d hd')
    · rw [if_neg hlen] at h
      exact List.mem_cons_of_mem _ (ih dgs dis h d hd)

lemma processGroups_filter :
    ∀ (gl : List (String × List Entry)) (dgs : List DupeGroup) (dis : List DupIssue)
      (i : String) (g : List Entry),
      (gl.map Prod.fst).Nodup → (i, g) ∈ gl → 1 < g.length →
      processGroups gl = some (dgs, dis) →
      ∃ sg, sortGroup g = some sg ∧
        dis.filter (fun d => d.ili == i) = [mkDupIssue i sg] := by
  intro gl
  induction gl with
  | nil => intro dgs dis i g _ hmem; exact absurd hmem (List.not_mem_nil _)
  | cons p rest ih =>
    intro dgs dis i g hnd hmem hlen h
    obtain ⟨j, gj⟩ := p
    have hkeys : ((j, gj) :: rest).map Prod.fst = j :: rest.map Prod.fst := rfl
    rw [hkeys] at hnd
    have hnd' : (rest.map Prod.fst).Nodup := (List.nodup_cons.mp hnd).2
    have hjni : j ∉ rest.map Prod.fst := (List.nodup_cons.mp hnd).1
    rcases List.mem_cons.mp hmem with heq | hmem'
    · injection heq with h1 h2
      subst h1
      subst h2
      unfold processGroups at h
      rw [if_pos hlen] at h
      cases hs : sortGroup g with
      | none => rw [hs] at h; exact Option.noConfusion h
      | some sg =>
        rw [hs] at h
        cases hr : processGroups rest with
        | none => rw [hr] at h; exact Option.noConfusion h
        | some pr =>
          obtain ⟨dgs', dis'⟩ := pr
          rw [hr] at h
          injection Option.some_injective _ h with h1 h2
          subst h2
          refine ⟨sg, rfl, ?_⟩
          rw [List.filter_cons, if_pos (by simp [mkDupIssue])]
          have hrest : dis'.filter (fun d => d.ili == i) = [] := by
            rw [List.filter_eq_nil]
            intro d hd
            have hmem2 := processGroups_ili_mem rest dgs' dis' hr d hd
            simp only [beq_iff_eq]
            intro hcontra
            rw [hcontra] at hmem2
            exact hjni hmem2
          rw [hrest]
    · have hji : j ≠ i := by
        intro hcontra
        subst hcontra
        exact hjni (List.mem_map.mpr ⟨(j, g), hmem', rfl⟩)
      unfold processGroups at h
      by_cases hlj : 1 < gj.length
      · rw [if_pos hlj] at h
        cases hs : sortGroup gj with
        | none => rw [hs] at h; exact Option.noConfusion h
        | some sgj =>
          rw [hs] at h
          cases hr : processGroups rest with
          | none => rw [hr] at h; exact Option.noConfusion h
          | some pr =>
            obtain ⟨dgs', dis'⟩ := pr
            rw [hr] at h
            injection Option.some_injective _ h with h1 h2
            subst h2
            obtain ⟨sg, hsg, hfil⟩ := ih dgs' dis' i g hnd' hmem' hlen hr
            refine ⟨sg, hsg, ?_⟩
            rw [List.filter_cons, if_neg (by simp [mkDupIssue, hji]), hfil]
      · rw [if_neg hlj] at h
        exact ih dgs dis i g hnd' hmem' hlen h

/-- Unfolding a successful `mark_dupes` run. -/
lemma mark_dupes_some (entries : List Entry) (issues : Issues)
    (entries' : List Entry) (dgs : List DupeGroup) (issues' : Issues)
    (h : mark_dupes entries issues = some (entries', dgs, issues')) :
    entries' = markAll entries ∧
    ∃ dis, processGroups (iliGroups entries) = some (dgs, dis) ∧
      issues' = { issues with duplicate_ili := issues.duplicate_ili ++ dis } := by
  unfold mark_dupes at h
  cases hp : processGroups (iliGroups entries) with
  | none => rw [hp] at h; exact Option.noConfusion h
  | some pr =>
    obtain ⟨dgs0, dis0⟩ := pr
    rw [hp] at h
    injection Option.some_injective _ h with h1 h2
    injection h2 with h2a h2b
    subst h1
    subst h2a
    subst h2b
    exact ⟨rfl, dis0, rfl, rfl⟩

/-! ### Lemmas about `markAll` -/

lemma getD_markAll (l : List Entry) (k : Nat) (hk : k < l.length) :
    (markAll l).getD k default = markOne l (l.getD k default) := by
  unfold markAll
  rw [List.getD_eq_getElem?_getD, List.getD_eq_getElem?_getD, List.getElem?_map,
      List.getElem?_eq_getElem hk]
  simp

lemma markOne_marks (l : List Entry) (e : Entry) (i : String)
    (hrel : e.rel = "equal") (hili : e.ili = some i) (hi : i ≠ "")
    (hc : 1 < iliCount l i) : (markOne l e).rel = "dupe" := by
  unfold markOne
  rw [if_pos (by simp [eqQualifies, optTruthy, iliKey, hrel, hili, hi, hc])]

lemma eqMatch_markOne (l : List Entry) (i : String) (e : Entry) :
    eqMatch i (markOne l e) = (eqMatch i e && !(decide (1 < iliCount l i))) := by
  by_cases hm : eqMatch i e = true
  · obtain ⟨hq, hkeyb⟩ := band_true hm
    have hkey : iliKey e = i := by simpa using hkeyb
    unfold markOne
    rw [hkey]
    by_cases hbig : 1 < iliCount l i
    · rw [if_pos (by simp [hq, hbig])]
      simp [eqMatch, eqQualifies, hbig]
    · rw [if_neg (by simp [hq, hbig])]
      simp [hm, hbig]
  · have hm' : eqMatch i e = false := by
      cases hb : eqMatch i e
      · rfl
      · exact absurd hb hm
    rw [hm']
    simp only [Bool.false_and]
    unfold markOne
    split
    · have : ((({ e with rel := "dupe" } : Entry).rel == "equal")) = false := rfl
      simp [eqMatch, eqQualifies, this]
    · exact hm'

lemma iliCount_markAll_le_one (l : List Entry) (i : String) :
    iliCount (markAll l) i ≤ 1 := by
  unfold iliCount markAll
  rw [List.countP_map]
  have hpt : ∀ e ∈ l, ((fun e => eqMatch i e) ∘ markOne l) e
      = (eqMatch i e && !(decide (1 < iliCount l i))) := by
    intro e _
    exact eqMatch_markOne l i e
  rw [List.countP_congr (fun x hx => by rw [hpt x hx])]
  by_cases hbig : 1 < iliCount l i
  · have hfalse : ∀ e ∈ l, (eqMatch i e && !(decide (1 < iliCount l i))) = false := by
      intro e _
      simp [hbig]
    calc l.countP (fun e => eqMatch i e && !(decide (1 < iliCount l i)))
        = l.countP (fun _ => false) :=
          List.countP_congr (fun x hx => by rw [hfalse x hx])
      _ = 0 := by simp
      _ ≤ 1 := by omega
  · have hle : l.countP (fun e => eqMatch i e && !(decide (1 < iliCount l i)))
        ≤ l.countP (fun e => eqMatch i e) := by
      apply List.countP_mono_left
      intro e _ h
      exact (band_true h).1
    have : iliCount l i ≤ 1 := by omega
    rw [iliCount] at this
    omega

lemma markAll_eq_self (l : List Entry) (h : ∀ i, iliCount l i ≤ 1) : markAll l = l := by
  unfold markAll
  have hpt : ∀ e ∈ l, markOne l e = e := by
    intro e _
    unfold markOne
    rw [if_neg]
    intro hcond
    obtain ⟨_, hdec⟩ := band_true hcond
    rw [decide_eq_true_iff] at hdec
    have := h (iliKey e)
    omega
  rw [List.map_congr_left hpt]
  simp

/-! ### Idempotence of the resolution pass -/

lemma resolve_entry_skip (m : String → Option String) (ewn : DB) (e : Entry)
    (iss : Issues) (h : (e.rel == "equal") = false) :
    resolve_entry m ewn e iss = some (e, iss) := by
  unfold resolve_entry
  rw [if_neg (by simp [h])]

lemma resolve_entry_fix (m : String → Option String) (ewn : DB)
    (e : Entry) (iss : Issues) (e1 : Entry) (iss1 : Issues)
    (h : resolve_entry m ewn e iss = some (e1, iss1)) (iss2 : Issues) :
    ∃ iss3, resolve_entry m ewn e1 iss2 = some (e1, iss3) := by
  unfold resolve_entry at h
  by_cases hrel : (e.rel == "equal") = true
  · rw [if_pos hrel] at h
    cases hm : m e.pwn21_key with
    | none =>
      simp only [hm] at h
      injection Option.some_injective _ h with h1 h2
      refine ⟨{ iss2 with missing_pwn30 := iss2.missing_pwn30 ++ [mkMissingPwn30 e1] }, ?_⟩
      subst h1
      unfold resolve_entry
      rw [if_pos (by simpa using hrel)]
      simp only [hm, mkMissingPwn30]
    | some pwn30Key =>
      cases hl : lookup_synset ewn pwn30Key with
      | none =>
        simp only [hm, hl] at h
        exact Option.noConfusion h
      | some pr =>
        obtain ⟨synsetOpt, actualKey⟩ := pr
        cases synsetOpt with
        | none =>
          simp only [hm, hl] at h
          injection Option.some_injective _ h with h1 h2
          refine ⟨{ iss2 with missing_omw := iss2.missing_omw ++ [mkMissingOmw e1 pwn30Key] }, ?_⟩
          subst h1
          unfold resolve_entry
          rw [if_pos (by simpa using hrel)]
          simp only [hm, hl, mkMissingOmw]
        | some synset =>
          cases hili : synset.ili with
          | none =>
            simp only [hm, hl, hili] at h
            injection Option.some_injective _ h with h1 h2
            refine ⟨{ iss2 with missing_ili := iss2.missing_ili ++ [mkMissingIli e1 actualKey] }, ?_⟩
            subst h1
            unfold resolve_entry
            rw [if_pos (by simpa using hrel)]
            simp only [hm, hl, hili, mkMissingIli]
          | some iliId =>
            simp only [hm, hl, hili] at h
            injection Option.some_injective _ h with h1 h2
            refine ⟨iss2, ?_⟩
            subst h1
            unfold resolve_entry
            rw [if_pos (by simpa using hrel)]
            simp only [hm, hl, hili]
  · rw [if_neg hrel] at h
    injection Option.some_injective _ h with h1 h2
    subst h1
    refine ⟨iss2, ?_⟩
    apply resolve_entry_skip
    cases hb : e.rel == "equal"
    · rfl
    · exact absurd hb hrel

lemma first_pass_mem_resolved (m : String → Option String) (ewn : DB) :
    ∀ (l : List Entry) (iss : Issues) (l1 : List Entry) (iss1 : Issues),
      first_pass m ewn l iss = some (l1, iss1) →
      ∀ x ∈ l1, ∃ e i0 i1, resolve_entry m ewn e i0 = some (x, i1) := by
  intro l
  induction l with
  | nil =>
    intro iss l1 iss1 h x hx
    injection Option.some_injective _ h with h1 h2
    subst h1
    exact absurd hx (List.not_mem_nil x)
  | cons e es ih =>
    intro iss l1 iss1 h x hx
    unfold first_pass at h
    cases hr : resolve_entry m ewn e iss with
    | none => rw [hr] at h; exact Option.noConfusion h
    | some pr =>
      obtain ⟨e1, issA⟩ := pr
      simp only [hr] at h
      cases hf : first_pass m ewn es issA with
      | none =>
        simp only [hf] at h
        exact Option.noConfusion h
      | some pr2 =>
        obtain ⟨es1, issB⟩ := pr2
        simp only [hf] at h
        injection Option.some_injective _ h with h1 h2
        subst h1
        rcases List.mem_cons.mp hx with rfl | hx'
        · exact ⟨e, iss, issA, hr⟩
        · exact ih issA es1 issB hf x hx'

lemma first_pass_fixed (m : String → Option String) (ewn : DB) :
    ∀ (l : List Entry),
      (∀ x ∈ l, ∀ issA : Issues, ∃ issB, resolve_entry m ewn x issA = some (x, issB)) →
      ∀ iss2 : Issues, ∃ iss3, first_pass m ewn l iss2 = some (l, iss3) := by
  intro l
  induction l with
  | nil => intro _ iss2; exact ⟨iss2, rfl⟩
  | cons x xs ih =>
    intro h iss2
    obtain ⟨issA, hA⟩ := h x (List.mem_cons_self x xs) iss2
    obtain ⟨issB, hB⟩ := ih (fun y hy => h y (List.mem_cons_of_mem x hy)) issA
    refine ⟨issB, ?_⟩
    unfold first_pass
    simp only [hA, hB]

lemma markAll_fixed (m : String → Option String) (ewn : DB)
    (entries : List Entry) (iss : Issues) (es1 : List Entry) (iss1 : Issues)
    (hfp : first_pass m ewn entries iss = some (es1, iss1)) :
    ∀ x ∈ markAll es1, ∀ issA : Issues,
      ∃ issB, resolve_entry m ewn x issA = some (x, issB) := by
  intro x hx issA
  obtain ⟨y, hy, rfl⟩ := List.mem_map.mp hx
  unfold markOne
  by_cases hcond : (eqQualifies y && decide (1 < iliCount es1 (iliKey y))) = true
  · rw [if_pos hcond]
    exact ⟨issA, resolve_entry_skip m ewn _ issA rfl⟩
  · rw [if_neg hcond]
    obtain ⟨e, i0, i1, hres⟩ := first_pass_mem_resolved m ewn entries iss es1 iss1 hfp y hy
    exact resolve_entry_fix m ewn e i0 y i1 hres issA

/-! ### Claim C1 -/

/-- C1: after duplicate detection, whenever an interlingual identity is
reached by more than one `equal` record, every member record of that
group — not only the extras — has its relation overwritten to `dupe`,
and exactly one duplicate-issue entry is recorded for the group, listing
all members (a permutation of the group) sorted by ascending numeric
value of the source identifier `iwn_id`. -/
theorem mark_dupes_duplicate_groups (entries : List Entry) (issues : Issues)
    (entries' : List Entry) (dgs : List DupeGroup) (issues' : Issues) (i : String)
    (hd0 : issues.duplicate_ili = [])
    (hrun : mark_dupes entries issues = some (entries', dgs, issues'))
    (hi : i ≠ "")
    (hcount : 1 < iliCount entries i) :
    (∀ k, k < entries.length →
        (entries.getD k default).rel = "equal" →
        (entries.getD k default).ili = some i →
        (entries'.getD k default).rel = "dupe") ∧
    (issues'.duplicate_ili.filter (fun d => d.ili == i)).length = 1 ∧
    ∀ d ∈ issues'.duplicate_ili.filter (fun d => d.ili == i),
      d.iwn_entries.Perm
        ((entries.filter (fun e => eqMatch i e)).map mkDupEntryInfo) ∧
      d.iwn_entries.Pairwise
        (fun a b => (pyToInt a.iwn_id).getD 0 ≤ (pyToInt b.iwn_id).getD 0) ∧
      ∀ x ∈ d.iwn_entries, (pyToInt x.iwn_id).isSome = true := by
  obtain ⟨hE, dis, hPG, hIss⟩ :=
    mark_dupes_some entries issues entries' dgs issues' hrun
  subst hE
  subst hIss
  have hlen2 : 1 < (entries.filter (fun e => eqMatch i e)).length := by
    rw [← List.countP_eq_length_filter]
    exact hcount
  have hmem : (i, entries.filter (fun e => eqMatch i e)) ∈ iliGroups entries :=
    iliGroups_mem_of_count entries i (by omega)
  have hnd : ((iliGroups entries).map Prod.fst).Nodup := by
    rw [iliGroups_keys]
    exact firstOccIlis_nodup entries
  obtain ⟨sg, hsg, hfil⟩ :=
    processGroups_filter (iliGroups entries) dgs dis i
      (entries.filter (fun e => eqMatch i e)) hnd hmem hlen2 hPG
  have hdis : ({ issues with duplicate_ili := issues.duplicate_ili ++ dis }).duplicate_ili
      = dis := by
    simp [hd0]
  refine ⟨?_, ?_, ?_⟩
  · intro k hk hrel hili
    rw [getD_markAll entries k hk]
    exact markOne_marks entries _ i hrel hili hi hcount
  · rw [hdis, hfil]
    rfl
  · intro d hd
    rw [hdis, hfil, List.mem_singleton] at hd
    subst hd
    refine ⟨?_, ?_, ?_⟩
    · exact (sortGroup_perm _ sg hsg).map mkDupEntryInfo
    · have hsorted := sortGroup_sorted _ sg hsg
      exact hsorted.map mkDupEntryInfo (fun a b hab => hab)
    · intro x hx
      obtain ⟨y, hy, rfl⟩ := List.mem_map.mp hx
      exact sortGroup_keys _ sg hsg y hy

/-- The duplicate pair of the C1 witness (source identifiers 20 and 5,
both `equal` to `i1`). -/
def dupEntryA : Entry :=
  { iwn_id := "20", iwn_pos := "NOUN", pwn21_offset := "1", pwn21_pos := "NOUN",
    english_lemmas := "", english_gloss := "", hindi_lemmas := "", hindi_gloss := "",
    original_rel := "Direct", rel := "equal", iwn_key := "20_n",
    pwn21_key := "00000001-n", ili := some "i1", pwn30_key := some "00000001-n" }

/-- The second member of the C1 witness pair. -/
def dupEntryB : Entry :=
  { iwn_id := "5", iwn_pos := "NOUN", pwn21_offset := "1", pwn21_pos := "NOUN",
    english_lemmas := "", english_gloss := "", hindi_lemmas := "", hindi_gloss := "",
    original_rel := "Direct", rel := "equal", iwn_key := "5_n",
    pwn21_key := "00000001-n", ili := some "i1", pwn30_key := some "00000001-n" }

/-- Witness for C1: both members of the group end as `dupe`, and exactly
one duplicate issue lists the group. -/
theorem mark_dupes_duplicate_groups_witness :
    1 < iliCount [dupEntryA, dupEntryB] "i1" ∧
    (mark_dupes [dupEntryA, dupEntryB] issues0).map
        (fun r => ((r.1.getD 0 default).rel, (r.1.getD 1 default).rel,
          (r.2.2.duplicate_ili.filter (fun d => d.ili == "i1")).length))
      = some ("dupe", "dupe", 1) := by
  refine ⟨by decide, ?_⟩
  cases hres : mark_dupes [dupEntryA, dupEntryB] issues0 with
  | none => exact absurd hres (by decide)
  | some r =>
    obtain ⟨es', r2⟩ := r
    obtain ⟨dgs', iss'⟩ := r2
    have h := mark_dupes_duplicate_groups [dupEntryA, dupEntryB] issues0 es' dgs' iss'
      "i1" rfl hres (by decide) (by decide)
    have h0 := h.1 0 (by decide) (by decide) (by decide)
    have h1 := h.1 1 (by decide) (by decide) (by decide)
    have h2 := h.2.1
    show some ((es'.getD 0 default).rel, (es'.getD 1 default).rel,
      (iss'.duplicate_ili.filter (fun d => d.ili == "i1")).length)
      = some ("dupe", "dupe", 1)
    rw [h0, h1, h2]

/-! ### Claim C3 -/

/-- C3: running the duplicate detector a second time on its own output
is idempotent: records re-labeled `dupe` are skipped by the resolution
pass and excluded from grouping, every remaining `equal` record resolves
to a distinct interlingual identity, and the second run returns the very
same record list with no duplicate groups. -/
theorem detect_and_mark_dupes_idempotent (m : String → Option String) (ewn : DB)
    (entries : List Entry) (issues : Issues) (entries' : List Entry)
    (dgs : List DupeGroup) (issues' : Issues)
    (hrun : detect_and_mark_dupes m ewn entries issues = some (entries', dgs, issues'))
    (issues2 : Issues) :
    (detect_and_mark_dupes m ewn entries' issues2).map (fun r => (r.1, r.2.1))
      = some (entries', ([] : List DupeGroup)) := by
  unfold detect_and_mark_dupes at hrun
  cases hfp : first_pass m ewn entries issues with
  | none => rw [hfp] at hrun; exact Option.noConfusion hrun
  | some pr =>
    obtain ⟨es1, iss1⟩ := pr
    rw [hfp] at hrun
    obtain ⟨hE, dis, hPG, hIss⟩ := mark_dupes_some es1 iss1 entries' dgs issues' hrun
    subst hE
    obtain ⟨iss3, hfp2⟩ := first_pass_fixed m ewn (markAll es1)
      (markAll_fixed m ewn entries issues es1 iss1 hfp) issues2
    have hcounts : ∀ i, iliCount (markAll es1) i ≤ 1 := fun i =>
      iliCount_markAll_le_one es1 i
    have hsmall : ∀ p ∈ iliGroups (markAll es1), ¬ 1 < p.2.length := by
      intro p hp
      obtain ⟨i, g⟩ := p
      have hg := mem_iliGroups (markAll es1) i g hp
      have hlen : g.length = iliCount (markAll es1) i := by
        rw [hg, iliCount, List.countP_eq_length_filter]
      have := hcounts i
      show ¬ 1 < g.length
      omega
    have hPG2 := processGroups_all_small (iliGroups (markAll es1)) hsmall
    have hmark2 := markAll_eq_self (markAll es1) hcounts
    unfold detect_and_mark_dupes
    simp only [hfp2]
    unfold mark_dupes
    simp only [hPG2]
    simp [hmark2]

/-- The version map of the C3 witness. -/
def idemMap : String → Option String := fun _ => some "00000001-n"

/-- The database of the C3 witness. -/
def idemDB : DB := fun _ => some ⟨some "i1"⟩

/-- Witness for C3: one successful detector run on a real duplicate
pair, then the second run reproduces the entries with no new groups. -/
theorem detect_and_mark_dupes_idempotent_witness :
    (detect_and_mark_dupes idemMap idemDB [dupEntryA, dupEntryB] issues0).isSome = true ∧
    ((detect_and_mark_dupes idemMap idemDB [dupEntryA, dupEntryB] issues0).bind
        (fun r => (detect_and_mark_dupes idemMap idemDB r.1 issues0).map
          (fun r2 => (r2.1, r2.2.1))))
      = (detect_and_mark_dupes idemMap idemDB [dupEntryA, dupEntryB] issues0).map
          (fun r => (r.1, ([] : List DupeGroup))) := by
  refine ⟨by decide, ?_⟩
  cases hres : detect_and_mark_dupes idemMap idemDB [dupEntryA, dupEntryB] issues0 with
  | none => rfl
  | some r =>
    obtain ⟨es', r2⟩ := r
    obtain ⟨dgs', iss'⟩ := r2
    have h := detect_and_mark_dupes_idempotent idemMap idemDB [dupEntryA, dupEntryB]
      issues0 es' dgs' iss' hres issues0
    show (detect_and_mark_dupes idemMap idemDB es' issues0).map (fun r2 => (r2.1, r2.2.1))
      = some (es', ([] : List DupeGroup))
    exact h

end Indown
